import Mathlib

/-!
# Verification of the bus1 transaction engine (ipc/bus1/transaction.c)

A shallow embedding of the multicast transaction engine. The transaction
code itself is translated line by line from `src/ipc/bus1/transaction.c`.
The collaborating subsystems (per-peer queue clocks, handle table, pool,
user-memory copies) are not part of the source tree; they are modelled
from the specification's contracts (spec §4.4 clock primitives, §3 data
model, §6 interfaces) and are marked `Modelled from the spec:` below.

Machine integers (`u64` ids and timestamps) are modelled as `Nat`: the code
performs no arithmetic on ids, and the kernel assumes clocks never wrap.
Kernel error returns are modelled as negative `Int` values, as in C.
-/

namespace Bus1

/-- Peers are identified by an abstract id (stands for `struct bus1_peer *`). -/
abbrev PeerId := Nat

/-- User-space addresses (`u64 __user *`). -/
abbrev Ptr := Nat

/-- `BUS1_HANDLE_INVALID` (`~0ULL` in uapi).
Modelled from the spec: the sentinel "invalid handle id". -/
def BUS1_HANDLE_INVALID : Nat := 18446744073709551615

def EFAULT : Int := 14
def EHOSTUNREACH : Int := 113
/-- `QUOTA_EXCEEDED` of the spec (§6); slice allocation failure. -/
def EDQUOT : Int := 122

/-- Observable actions of the transaction engine, recorded in program order.
The clock operations (`tick`, `sync`, `stage`) carry the values the spec's
§4.4 primitives return, so protocol-shape claims can be stated on traces. -/
inductive Event where
  | tick (p : PeerId) (val : Nat)
  | sync (p : PeerId) (arg val : Nat)
  | stage (p : PeerId) (node t : Nat)
  | remove (p : PeerId) (node : Nat)
  | wake (p : PeerId)
  | put (ptr : Ptr) (val : Nat) (ok : Bool)
  | dealloc (node : Nat)
  | freeMsg (node : Nat)
  | destDestroy (p : PeerId)
  | fput (f : Nat)
  | transferDestroy
deriving Repr, DecidableEq

/-- Modelled from the spec: a peer's queue (queue.c is not in the source
tree).  It owns the monotone logical clock (§4.4) and the set of linked
queue nodes, each carrying its logical timestamp. -/
structure bus1_queue where
  clock : Nat
  nodes : List (Nat × Nat)   -- (node id, timestamp)
deriving Repr, DecidableEq

/-- Modelled from the spec: `tick(q)` — "atomically advance q and return
the new value" (§4.4). -/
def bus1_queue_tick (q : bus1_queue) : bus1_queue × Nat :=
  ({ q with clock := q.clock + 1 }, q.clock + 1)

/-- Modelled from the spec: `sync(q, t)` — "advance q to at least t;
return the resulting value" (§4.4). -/
def bus1_queue_sync (q : bus1_queue) (t : Nat) : bus1_queue × Nat :=
  ({ q with clock := max q.clock t }, max q.clock t)

/-- Modelled from the spec: a node is queued iff it is currently linked
("the entry's node is no longer linked", §4.5). -/
def bus1_queue_node_is_queued (q : bus1_queue) (node : Nat) : Bool :=
  q.nodes.any (fun e => e.1 == node)

/-- Modelled from the spec: the queue's earliest event, ordered by
timestamp with ties broken by node identity (§4.4 "ties are broken by
peer identity"). Used only for the "visibility advanced" wake signal. -/
def queueFront (q : bus1_queue) : Option (Nat × Nat) :=
  q.nodes.foldl (fun acc e =>
    match acc with
    | none => some (e.2, e.1)
    | some (t, n) =>
        if e.2 < t || (e.2 == t && e.1 < n) then some (e.2, e.1)
        else some (t, n)) none

/-- Modelled from the spec: `stage(q, node, t)` — "insert node at logical
time t; return true iff the queue's earliest visible event advanced"
(§4.4).  Re-staging an already linked node updates its timestamp. -/
def bus1_queue_stage (q : bus1_queue) (node t : Nat) : bus1_queue × Bool :=
  let q' := { q with nodes := (node, t) :: q.nodes.filter (fun e => e.1 != node) }
  (q', queueFront q' != queueFront q)

/-- Modelled from the spec: `remove(q, node)` — "detach node if still
present" (§4.4); reports whether it altered visibility (§4.6). -/
def bus1_queue_remove (q : bus1_queue) (node : Nat) : bus1_queue × Bool :=
  if bus1_queue_node_is_queued q node then
    let q' := { q with nodes := q.nodes.filter (fun e => e.1 != node) }
    (q', queueFront q' != queueFront q)
  else (q, false)

/-- Per-peer state touched by the transaction engine: the queue (with its
clock) and the dropped-message counter `n_dropped`. -/
structure bus1_peer_info where
  queue : bus1_queue
  n_dropped : Nat
deriving Repr, DecidableEq

/-- The world: all peers, user memory, and the environment of the
collaborating subsystems.  The environment functions are
`Modelled from the spec:`
* `faults p` — whether a `put_user` to address `p` faults (§5 user-space
  faults);
* `resolve h` — the handle table: resolves a sender-local handle id to
  the destination peer and whether an id write-back is wanted
  (§4.3 step 1, §3 handle destination), or fails with
  `INVALID_HANDLE` / `PEER_SHUTDOWN`;
* `slice_alloc d` — pool slice allocation at destination `d`
  (§4.3 step 4), `none` on `QUOTA_EXCEEDED`;
* `copy_ok` — whether the scatter-gather payload copy succeeds
  (§4.3 step 5);
* `export_id d ts` — `bus1_handle_dest_export`: the destination-local id
  assigned at commit time `ts` (§4.5 commit pass), possibly
  `BUS1_HANDLE_INVALID` when racing a node destruction. -/
structure World where
  peers : PeerId → bus1_peer_info
  mem : Ptr → Nat
  faults : Ptr → Bool
  resolve : Nat → Except Int (PeerId × Bool)
  slice_alloc : PeerId → Option Nat
  copy_ok : Bool
  export_id : PeerId → Nat → Nat
  next_node : Nat
  msg_dest : Nat → Option Nat
  freed : List Nat
  events : List Event

def World.log (w : World) (e : Event) : World :=
  { w with events := w.events ++ [e] }

def updPeer (w : World) (p : PeerId) (pi : bus1_peer_info) : World :=
  { w with peers := fun q => if q = p then pi else w.peers q }

def peerClock (w : World) (p : PeerId) : Nat := (w.peers p).queue.clock

def peerDropped (w : World) (p : PeerId) : Nat := (w.peers p).n_dropped

/-- The timestamp at which node `n` is linked on peer `p`'s queue, if any. -/
def nodeStamp (w : World) (p : PeerId) (n : Nat) : Option Nat :=
  ((w.peers p).queue.nodes.find? (fun e => e.1 == n)).map (·.2)

/-- `bus1_queue_tick` on peer `p`'s queue, under its lock. -/
def wTick (w : World) (p : PeerId) : World × Nat :=
  let r := bus1_queue_tick (w.peers p).queue
  (((updPeer w p { w.peers p with queue := r.1 }).log (.tick p r.2)), r.2)

/-- `bus1_queue_sync` on peer `p`'s queue, under its lock. -/
def wSync (w : World) (p : PeerId) (t : Nat) : World × Nat :=
  let r := bus1_queue_sync (w.peers p).queue t
  (((updPeer w p { w.peers p with queue := r.1 }).log (.sync p t r.2)), r.2)

/-- `bus1_queue_stage` on peer `p`'s queue; returns the wake signal. -/
def wStage (w : World) (p : PeerId) (node t : Nat) : World × Bool :=
  let r := bus1_queue_stage (w.peers p).queue node t
  (((updPeer w p { w.peers p with queue := r.1 }).log (.stage p node t)), r.2)

/-- `bus1_queue_remove` on peer `p`'s queue; returns the wake signal. -/
def wRemove (w : World) (p : PeerId) (node : Nat) : World × Bool :=
  let r := bus1_queue_remove (w.peers p).queue node
  (((updPeer w p { w.peers p with queue := r.1 }).log (.remove p node)), r.2)

/-- `bus1_peer_wake`. -/
def wWake (w : World) (p : PeerId) : World := w.log (.wake p)

/-- `put_user(val, ptr)`: returns `true` on fault (nonzero in C).
Modelled from the spec: user-memory writes may fault (§5). -/
def put_user (w : World) (val : Nat) (ptr : Ptr) : World × Bool :=
  if w.faults ptr then (w.log (.put ptr val false), true)
  else ({ w with mem := fun q => if q = ptr then val else w.mem q
        }.log (.put ptr val true), false)

/-- `bus1_message_free`. -/
def wFreeMsg (w : World) (node : Nat) : World :=
  ({ w with freed := w.freed ++ [node] }).log (.freeMsg node)

/-- `message->data.destination = id`. -/
def setMsgDest (w : World) (n id : Nat) : World :=
  { w with msg_dest := fun m => if m = n then some id else w.msg_dest m }

/-- `struct bus1_cmd_send`: the send parameters.  The two flags of the
uapi (`BUS1_SEND_FLAG_CONTINUE`, `BUS1_SEND_FLAG_SILENT`) are modelled as
booleans (spec §6). -/
structure bus1_cmd_send where
  n_vecs : Nat
  n_fds : Nat
  n_handles : Nat
  flag_continue : Bool
  flag_silent : Bool
deriving Repr, DecidableEq

/-- `struct bus1_handle_dest`: resolved destination peer plus the
user-space address for the id write-back (spec §3). -/
structure bus1_handle_dest where
  raw_peer : PeerId
  idp : Option Ptr
deriving Repr, DecidableEq

/-- `struct bus1_message`, restricted to the fields the transaction engine
reads or writes: the queue-node identity, the pool slice (`none` means no
slice allocated or already deallocated), and `data.destination`. -/
structure bus1_message where
  node : Nat
  slice : Option Nat
  destination : Nat
deriving Repr, DecidableEq

/-- A linked entry: the message plus its `transaction.dest` binding.
`transaction->entries` with the `transaction.next` chain becomes a list
(head = most recently linked entry, as in the C prepend). -/
structure bus1_transaction where
  peer : PeerId
  param : bus1_cmd_send
  length_vecs : Nat
  files : List (Option Nat)
  entries : List (bus1_message × bus1_handle_dest)
deriving Repr, DecidableEq

/-- `bus1_transaction_init` (transaction.c:72).  `garbage` is the
uninitialized content of the `files` array region (`n_fds` slots) before
the memset; the source's memset zeroes `param->n_vecs * sizeof(struct
file *)` bytes at `transaction->files`, i.e. the first `n_vecs` file
slots. -/
def bus1_transaction_init (peer : PeerId) (param : bus1_cmd_send)
    (garbage : List (Option Nat)) : bus1_transaction :=
  { peer := peer
    param := param
    length_vecs := 0
    files := (List.range param.n_fds).map
      (fun i => if i < param.n_vecs then none else garbage.getD i none)
    entries := [] }

/-- One iteration of the teardown loop of `bus1_transaction_destroy`
(transaction.c:99): under the destination lock, remove the queue node
(waking the peer on a visibility change) and deallocate the message;
then free the message and destroy the destination binding. -/
def destroyEntryStep (w : World) (md : bus1_message × bus1_handle_dest) :
    World :=
  let r := wRemove w md.2.raw_peer md.1.node
  let w := if r.2 then wWake r.1 md.2.raw_peer else r.1
  let w := w.log (.dealloc md.1.node)
  let w := wFreeMsg w md.1.node
  w.log (.destDestroy md.2.raw_peer)

/-- One iteration of the file-release loop of `bus1_transaction_destroy`
(transaction.c:119): `if (transaction->files[i]) fput(...)`. -/
def fputStep (w : World) (f : Option Nat) : World :=
  match f with
  | some g => w.log (.fput g)
  | none => w

/-- `bus1_transaction_destroy` (transaction.c:92): walk the entries list;
for each entry, under the destination lock remove the queue node (waking
on visibility change), deallocate the message, free it and destroy the
destination binding; then release the remaining file references and the
handle-transfer descriptor. -/
def bus1_transaction_destroy (w : World) (tx : bus1_transaction) : World :=
  (tx.files.foldl fputStep (tx.entries.foldl destroyEntryStep w)).log
    .transferDestroy

/-- `bus1_transaction_import_files` (transaction.c:149): import one file
per descriptor, in order, stopping at the first failure.
`fd_import i` is `bus1_import_fd` for slot `i` (modelled from the spec:
"for each user descriptor, acquire a reference to the backing file"). -/
def bus1_transaction_import_files (tx : bus1_transaction)
    (fd_import : Nat → Except Int Nat) : bus1_transaction × Int :=
  (List.range tx.param.n_fds).foldl (fun acc i =>
    match acc with
    | (tx, r) =>
      if r = 0 then
        match fd_import i with
        | .error e => (tx, e)
        | .ok f => ({ tx with files := tx.files.set i (some f) }, 0)
      else (tx, r)) (tx, 0)

/-- `bus1_transaction_new_from_user` (transaction.c:193): init, then the
three imports in order; on any failure the transaction is destroyed and
the error returned.  `vec_import` and `handle_import` are the results of
the vector and handle imports (modelled from the spec §4.2; they touch
no destination state). -/
def bus1_transaction_new_from_user (w : World) (peer : PeerId)
    (param : bus1_cmd_send) (garbage : List (Option Nat))
    (vec_import : Except Int Nat) (handle_import : Except Int Unit)
    (fd_import : Nat → Except Int Nat) :
    World × Except Int bus1_transaction :=
  let tx := bus1_transaction_init peer param garbage
  match vec_import with
  | .error e => (bus1_transaction_destroy w tx, .error e)
  | .ok len =>
    let tx := { tx with length_vecs := len }
    match handle_import with
    | .error e => (bus1_transaction_destroy w tx, .error e)
    | .ok _ =>
      match bus1_transaction_import_files tx fd_import with
      | (tx, r) =>
        if r = 0 then (w, .ok tx)
        else (bus1_transaction_destroy w tx, .error r)

/-- `bus1_transaction_instantiate` (transaction.c:261).  On error the
result carries the error code and the destination binding if it was
already imported (in C, `dest` is an out-parameter the caller destroys).
The credential translation (§4.3 step 7) and the per-message file
duplication (step 8) have no observable effect in this model and are
elided. -/
def bus1_transaction_instantiate (w : World) (tx : bus1_transaction)
    (idp : Ptr) :
    World × Except (Int × Option bus1_handle_dest)
                   (bus1_message × bus1_handle_dest) :=
  match w.resolve (w.mem idp) with
  | .error e => (w, .error (e, none))
  | .ok (p, wants) =>
    let dest : bus1_handle_dest :=
      { raw_peer := p, idp := if wants then some idp else none }
    let node := w.next_node
    let w := { w with next_node := w.next_node + 1 }
    match w.slice_alloc p with
    | none =>
      -- bus1_message_allocate failed: target error.  Under CONTINUE the
      -- error is converted to r = 0 and the sliceless message survives
      -- the error path (deallocate is a no-op, free is skipped).
      if tx.param.flag_continue then
        (w.log (.dealloc node),
         .ok ({ node := node, slice := none, destination := 0 }, dest))
      else
        (wFreeMsg (w.log (.dealloc node)) node, .error (-EDQUOT, some dest))
    | some s =>
      if w.copy_ok then
        (w, .ok ({ node := node, slice := some s, destination := 0 }, dest))
      else
        -- bus1_pool_write_iovec faulted: error path deallocates and frees.
        (wFreeMsg (w.log (.dealloc node)) node, .error (-EFAULT, some dest))

/-- `bus1_transaction_instantiate_for_id` (transaction.c:359): instantiate
and link the entry, or destroy the destination binding and return the
error. -/
def bus1_transaction_instantiate_for_id (w : World) (tx : bus1_transaction)
    (idp : Ptr) : World × bus1_transaction × Int :=
  match bus1_transaction_instantiate w tx idp with
  | (w, .error (e, dopt)) =>
    (match dopt with
     | some d => (w.log (.destDestroy d.raw_peer), tx, e)
     | none => (w, tx, e))
  | (w, .ok (msg, dest)) =>
    (w, { tx with entries := (msg, dest) :: tx.entries }, 0)

/-- `bus1_transaction_consume` (transaction.c:385), translated branch by
branch.  With `timestamp = 0` it acquires the sender tick and the
destination sync+tick inline; a sliceless message counts as a silent
drop; a queued message is exported, written back and committed by
re-staging at `ts`; otherwise the message is removed and released.
Returns `-EFAULT` if the id write-back faulted, else the branch code. -/
def bus1_transaction_consume (w : World) (tx : bus1_transaction)
    (message : bus1_message) (dest : bus1_handle_dest) (timestamp : Nat) :
    World × Int :=
  let d := dest.raw_peer
  let s0 := if timestamp = 0 then wTick w tx.peer else (w, timestamp)
  -- bus1_handle_inflight_install: no observable effect in this model
  let s1 := if timestamp = 0 then
              let s := wSync s0.1 d s0.2
              wTick s.1 d
            else s0
  let w2 := s1.1
  let ts := s1.2
  match message.slice with
  | none =>
    let s2 := match dest.idp with
              | some p => put_user w2 BUS1_HANDLE_INVALID p
              | none => (w2, false)
    let w3 := s2.1
    let faulted := s2.2
    let pi := w3.peers d
    let w4 := updPeer w3 d { pi with n_dropped := pi.n_dropped + 1 }
    let w5 := if pi.n_dropped + 1 = 1 then wWake w4 d else w4
    -- id is still BUS1_HANDLE_INVALID: remove, deallocate, free; r = 0
    let w6 := ((wRemove w5 d message.node).1).log (.dealloc message.node)
    let w7 := (wFreeMsg w6 message.node).log (.destDestroy d)
    (w7, if faulted then -EFAULT else 0)
  | some _ =>
    if bus1_queue_node_is_queued (w2.peers d).queue message.node then
      let id := w2.export_id d ts
      let s2 := match dest.idp with
                | some p => put_user w2 id p
                | none => (w2, false)
      let w3 := s2.1
      let faulted := s2.2
      if id ≠ BUS1_HANDLE_INVALID then
        -- message->data.destination = id; commit by staging at ts
        let w4 := setMsgDest w3 message.node id
        let s3 := wStage w4 d message.node ts
        let w5 := if s3.2 then wWake s3.1 d else s3.1
        (w5.log (.destDestroy d), if faulted then -EFAULT else 0)
      else
        let w4 := ((wRemove w3 d message.node).1).log (.dealloc message.node)
        let w5 := (wFreeMsg w4 message.node).log (.destDestroy d)
        (w5, if faulted then -EFAULT else -EHOSTUNREACH)
    else
      let w4 := ((wRemove w2 d message.node).1).log (.dealloc message.node)
      let w5 := (wFreeMsg w4 message.node).log (.destDestroy d)
      (w5, -EHOSTUNREACH)

/-- One step of the staging pass of `bus1_transaction_commit`
(transaction.c:498): under the destination lock, sync the remote clock
with the running timestamp, tick it, and stage the node at
`timestamp - 1`, waking the peer if visibility advanced. -/
def stagingStep (acc : World × Nat)
    (e : bus1_message × bus1_handle_dest) : World × Nat :=
  let s1 := wSync acc.1 e.2.raw_peer acc.2
  let s2 := wTick s1.1 e.2.raw_peer
  let s3 := wStage s2.1 e.2.raw_peer e.1.node (s2.2 - 1)
  (if s3.2 then wWake s3.1 e.2.raw_peer else s3.1, s2.2)

/-- The staging pass (first loop of `bus1_transaction_commit`). -/
def stagingPass (w : World) (es : List (bus1_message × bus1_handle_dest))
    (t0 : Nat) : World × Nat :=
  es.foldl stagingStep (w, t0)

/-- The side-channel sync pass (second loop of `bus1_transaction_commit`,
transaction.c:530): sync every destination clock to the commit
timestamp. -/
def syncPass (w : World) (es : List (bus1_message × bus1_handle_dest))
    (t0 : Nat) : World :=
  es.foldl (fun w e => (wSync w e.2.raw_peer t0).1) w

/-- The commit pass (third loop of `bus1_transaction_commit`,
transaction.c:551): consume every entry at the commit timestamp, latching
`-EFAULT` and ignoring `-EHOSTUNREACH`. -/
def commitPass (w : World) (tx : bus1_transaction)
    (es : List (bus1_message × bus1_handle_dest)) (t0 : Nat) :
    World × Int :=
  es.foldl (fun acc e =>
    let s := bus1_transaction_consume acc.1 tx e.1 e.2 t0
    (s.1, if s.2 = -EFAULT then s.2 else acc.2)) (w, 0)

/-- `bus1_transaction_commit` (transaction.c:468): take ownership of the
entries list, tick the sender clock, then run the staging, side-channel
sync and commit passes. -/
def bus1_transaction_commit (w : World) (tx : bus1_transaction) :
    World × bus1_transaction × Int :=
  match tx.entries with
  | [] => (w, tx, 0)
  | _ :: _ =>
    let es := tx.entries
    let tx' := { tx with entries := [] }
    let s0 := wTick w tx.peer
    let s1 := stagingPass s0.1 es s0.2
    let w2 := syncPass s1.1 es s1.2
    let s2 := commitPass w2 tx' es s1.2
    (s2.1, tx', s2.2)

/-- `bus1_transaction_commit_for_id` (transaction.c:590): the unicast
fast path; instantiate and consume with `timestamp = 0`.  (The trailing
`bus1_handle_dest_destroy` on the success path acts on the binding
already consumed and reset by `bus1_transaction_consume`, hence has no
effect.) -/
def bus1_transaction_commit_for_id (w : World) (tx : bus1_transaction)
    (idp : Ptr) : World × Int :=
  match bus1_transaction_instantiate w tx idp with
  | (w, .error (e, dopt)) =>
    (match dopt with
     | some d => (w.log (.destDestroy d.raw_peer), e)
     | none => (w, e))
  | (w, .ok (msg, dest)) => bus1_transaction_consume w tx msg dest 0

/-- Whether the id write-back of an entry would fault: the entry carries a
write-back pointer and that pointer faults. -/
def entryFault (w : World) (e : bus1_message × bus1_handle_dest) : Bool :=
  match e.2.idp with
  | some p => w.faults p
  | none => false

/-- Clock operations (ticks and syncs) among the events. -/
def isClockAdv : Event → Bool
  | .tick _ _ => true
  | .sync _ _ _ => true
  | _ => false

/-- Id write-back attempts among the events. -/
def isPut : Event → Bool
  | .put _ _ _ => true
  | _ => false

section Projections

@[simp] lemma log_peers (w : World) (e : Event) : (w.log e).peers = w.peers := rfl
@[simp] lemma log_mem (w : World) (e : Event) : (w.log e).mem = w.mem := rfl
@[simp] lemma log_faults (w : World) (e : Event) : (w.log e).faults = w.faults := rfl
@[simp] lemma log_resolve (w : World) (e : Event) : (w.log e).resolve = w.resolve := rfl
@[simp] lemma log_slice_alloc (w : World) (e : Event) :
    (w.log e).slice_alloc = w.slice_alloc := rfl
@[simp] lemma log_copy_ok (w : World) (e : Event) : (w.log e).copy_ok = w.copy_ok := rfl
@[simp] lemma log_export_id (w : World) (e : Event) :
    (w.log e).export_id = w.export_id := rfl
@[simp] lemma log_next_node (w : World) (e : Event) :
    (w.log e).next_node = w.next_node := rfl
@[simp] lemma log_msg_dest (w : World) (e : Event) :
    (w.log e).msg_dest = w.msg_dest := rfl
@[simp] lemma log_freed (w : World) (e : Event) : (w.log e).freed = w.freed := rfl
@[simp] lemma log_events (w : World) (e : Event) :
    (w.log e).events = w.events ++ [e] := rfl

@[simp] lemma updPeer_peers (w : World) (p : PeerId) (pi : bus1_peer_info)
    (q : PeerId) : (updPeer w p pi).peers q = if q = p then pi else w.peers q := rfl
@[simp] lemma updPeer_mem (w : World) (p : PeerId) (pi : bus1_peer_info) :
    (updPeer w p pi).mem = w.mem := rfl
@[simp] lemma updPeer_faults (w : World) (p : PeerId) (pi : bus1_peer_info) :
    (updPeer w p pi).faults = w.faults := rfl
@[simp] lemma updPeer_resolve (w : World) (p : PeerId) (pi : bus1_peer_info) :
    (updPeer w p pi).resolve = w.resolve := rfl
@[simp] lemma updPeer_slice_alloc (w : World) (p : PeerId) (pi : bus1_peer_info) :
    (updPeer w p pi).slice_alloc = w.slice_alloc := rfl
@[simp] lemma updPeer_copy_ok (w : World) (p : PeerId) (pi : bus1_peer_info) :
    (updPeer w p pi).copy_ok = w.copy_ok := rfl
@[simp] lemma updPeer_export_id (w : World) (p : PeerId) (pi : bus1_peer_info) :
    (updPeer w p pi).export_id = w.export_id := rfl
@[simp] lemma updPeer_next_node (w : World) (p : PeerId) (pi : bus1_peer_info) :
    (updPeer w p pi).next_node = w.next_node := rfl
@[simp] lemma updPeer_msg_dest (w : World) (p : PeerId) (pi : bus1_peer_info) :
    (updPeer w p pi).msg_dest = w.msg_dest := rfl
@[simp] lemma updPeer_freed (w : World) (p : PeerId) (pi : bus1_peer_info) :
    (updPeer w p pi).freed = w.freed := rfl
@[simp] lemma updPeer_events (w : World) (p : PeerId) (pi : bus1_peer_info) :
    (updPeer w p pi).events = w.events := rfl

end Projections

section QueueLemmas

lemma find?_filter_of_imp (l : List α) (p q : α → Bool)
    (h : ∀ a, p a = true → q a = true) :
    (l.filter q).find? p = l.find? p := by
  induction l with
  | nil => rfl
  | cons a l ih =>
    by_cases hq : q a
    · by_cases hp : p a
      · simp [List.filter_cons, hq, List.find?_cons, hp]
      · simp only [List.filter_cons, hq, if_true, List.find?_cons, hp]
        simpa [hp] using ih
    · have hp : p a = false := by
        cases hpa : p a
        · rfl
        · exact absurd (h a hpa) (by simpa using hq)
      simp only [List.filter_cons, hq, if_false, List.find?_cons, hp]
      simpa [hp] using ih

lemma nodeStamp_isSome_iff_queued (w : World) (p : PeerId) (n : Nat) :
    (nodeStamp w p n).isSome = bus1_queue_node_is_queued (w.peers p).queue n := by
  rw [Bool.eq_iff_iff]
  simp [nodeStamp, bus1_queue_node_is_queued, List.find?_isSome, List.any_eq_true]

lemma stage_find (qn : bus1_queue) (node t n : Nat) :
    (bus1_queue_stage qn node t).1.nodes.find? (fun e => e.1 == n) =
      if n = node then some (node, t)
      else qn.nodes.find? (fun e => e.1 == n) := by
  by_cases hn : n = node
  · subst hn
    simp [bus1_queue_stage, List.find?_cons_of_pos]
  · have hne : ((node, t).1 == n) = false := by simpa using Ne.symm hn
    simp only [bus1_queue_stage, if_neg hn]
    rw [List.find?_cons_of_neg _ (by simp [hne]), find?_filter_of_imp]
    intro a ha
    have : a.1 = n := by simpa using ha
    simp [this, hn]

lemma find?_eq_none_of_not_queued (qn : bus1_queue) (n : Nat)
    (hq : bus1_queue_node_is_queued qn n = false) :
    qn.nodes.find? (fun e => e.1 == n) = none := by
  rw [List.find?_eq_none]
  intro x hx hxe
  have : bus1_queue_node_is_queued qn n = true := by
    simp only [bus1_queue_node_is_queued, List.any_eq_true]
    exact ⟨x, hx, hxe⟩
  rw [this] at hq
  exact absurd hq (by simp)

lemma remove_find (qn : bus1_queue) (node n : Nat) :
    (bus1_queue_remove qn node).1.nodes.find? (fun e => e.1 == n) =
      if n = node then none
      else qn.nodes.find? (fun e => e.1 == n) := by
  cases hq : bus1_queue_node_is_queued qn node with
  | true =>
    by_cases hn : n = node
    · subst hn
      simp only [bus1_queue_remove, hq, if_pos rfl, if_true]
      rw [List.find?_eq_none]
      intro x hx
      have := (List.mem_filter.mp hx).2
      simpa using this
    · simp only [bus1_queue_remove, hq, if_neg hn, if_true]
      rw [find?_filter_of_imp]
      intro a ha
      have : a.1 = n := by simpa using ha
      simp [this, hn]
  | false =>
    by_cases hn : n = node
    · subst hn
      simp only [bus1_queue_remove, hq, Bool.false_eq_true, if_false, if_pos rfl,
                 if_true]
      exact find?_eq_none_of_not_queued qn n hq
    · simp [bus1_queue_remove, hq, hn]

lemma remove_clock (qn : bus1_queue) (node : Nat) :
    (bus1_queue_remove qn node).1.clock = qn.clock := by
  cases hq : bus1_queue_node_is_queued qn node <;> simp [bus1_queue_remove, hq]

end QueueLemmas

section OpLemmas

@[simp] lemma wTick_snd (w : World) (p : PeerId) :
    (wTick w p).2 = peerClock w p + 1 := rfl

@[simp] lemma wTick_peerClock (w : World) (p q : PeerId) :
    peerClock (wTick w p).1 q = if q = p then peerClock w p + 1 else peerClock w q := by
  by_cases h : q = p <;> simp [wTick, peerClock, bus1_queue_tick, h]

@[simp] lemma wTick_peerDropped (w : World) (p q : PeerId) :
    peerDropped (wTick w p).1 q = peerDropped w q := by
  by_cases h : q = p <;> simp [wTick, peerDropped, bus1_queue_tick, h]

@[simp] lemma wTick_nodeStamp (w : World) (p q : PeerId) (n : Nat) :
    nodeStamp (wTick w p).1 q n = nodeStamp w q n := by
  by_cases h : q = p <;> simp [wTick, nodeStamp, bus1_queue_tick, h]

@[simp] lemma wTick_mem (w : World) (p : PeerId) : (wTick w p).1.mem = w.mem := rfl
@[simp] lemma wTick_faults (w : World) (p : PeerId) :
    (wTick w p).1.faults = w.faults := rfl
@[simp] lemma wTick_export_id (w : World) (p : PeerId) :
    (wTick w p).1.export_id = w.export_id := rfl
@[simp] lemma wTick_freed (w : World) (p : PeerId) : (wTick w p).1.freed = w.freed := rfl
@[simp] lemma wTick_events (w : World) (p : PeerId) :
    (wTick w p).1.events = w.events ++ [.tick p (peerClock w p + 1)] := rfl

@[simp] lemma wSync_snd (w : World) (p : PeerId) (t : Nat) :
    (wSync w p t).2 = max (peerClock w p) t := rfl

@[simp] lemma wSync_peerClock (w : World) (p q : PeerId) (t : Nat) :
    peerClock (wSync w p t).1 q =
      if q = p then max (peerClock w p) t else peerClock w q := by
  by_cases h : q = p <;> simp [wSync, peerClock, bus1_queue_sync, h]

@[simp] lemma wSync_peerDropped (w : World) (p q : PeerId) (t : Nat) :
    peerDropped (wSync w p t).1 q = peerDropped w q := by
  by_cases h : q = p <;> simp [wSync, peerDropped, bus1_queue_sync, h]

@[simp] lemma wSync_nodeStamp (w : World) (p q : PeerId) (t n : Nat) :
    nodeStamp (wSync w p t).1 q n = nodeStamp w q n := by
  by_cases h : q = p <;> simp [wSync, nodeStamp, bus1_queue_sync, h]

@[simp] lemma wSync_mem (w : World) (p : PeerId) (t : Nat) :
    (wSync w p t).1.mem = w.mem := rfl
@[simp] lemma wSync_faults (w : World) (p : PeerId) (t : Nat) :
    (wSync w p t).1.faults = w.faults := rfl
@[simp] lemma wSync_export_id (w : World) (p : PeerId) (t : Nat) :
    (wSync w p t).1.export_id = w.export_id := rfl
@[simp] lemma wSync_freed (w : World) (p : PeerId) (t : Nat) :
    (wSync w p t).1.freed = w.freed := rfl
@[simp] lemma wSync_events (w : World) (p : PeerId) (t : Nat) :
    (wSync w p t).1.events = w.events ++ [.sync p t (max (peerClock w p) t)] := rfl

@[simp] lemma wStage_peerClock (w : World) (p q : PeerId) (node t : Nat) :
    peerClock (wStage w p node t).1 q = peerClock w q := by
  by_cases h : q = p <;> simp [wStage, peerClock, bus1_queue_stage, h]

@[simp] lemma wStage_peerDropped (w : World) (p q : PeerId) (node t : Nat) :
    peerDropped (wStage w p node t).1 q = peerDropped w q := by
  by_cases h : q = p <;> simp [wStage, peerDropped, bus1_queue_stage, h]

lemma wStage_nodeStamp (w : World) (p q : PeerId) (node t n : Nat) :
    nodeStamp (wStage w p node t).1 q n =
      if q = p then (if n = node then some t else nodeStamp w p n)
      else nodeStamp w q n := by
  by_cases h : q = p
  · subst h
    simp only [wStage, nodeStamp, updPeer_peers, log_peers, if_pos rfl, if_true]
    rw [stage_find]
    by_cases hn : n = node <;> simp [hn]
  · simp [wStage, nodeStamp, h]

@[simp] lemma wStage_mem (w : World) (p : PeerId) (node t : Nat) :
    (wStage w p node t).1.mem = w.mem := rfl
@[simp] lemma wStage_faults (w : World) (p : PeerId) (node t : Nat) :
    (wStage w p node t).1.faults = w.faults := rfl
@[simp] lemma wStage_export_id (w : World) (p : PeerId) (node t : Nat) :
    (wStage w p node t).1.export_id = w.export_id := rfl
@[simp] lemma wStage_freed (w : World) (p : PeerId) (node t : Nat) :
    (wStage w p node t).1.freed = w.freed := rfl
@[simp] lemma wStage_events (w : World) (p : PeerId) (node t : Nat) :
    (wStage w p node t).1.events = w.events ++ [.stage p node t] := rfl

@[simp] lemma wRemove_peerClock (w : World) (p q : PeerId) (node : Nat) :
    peerClock (wRemove w p node).1 q = peerClock w q := by
  by_cases h : q = p <;> simp [wRemove, peerClock, remove_clock, h]

@[simp] lemma wRemove_peerDropped (w : World) (p q : PeerId) (node : Nat) :
    peerDropped (wRemove w p node).1 q = peerDropped w q := by
  by_cases h : q = p
  · subst h
    cases hq : bus1_queue_node_is_queued (w.peers q).queue node <;>
      simp [wRemove, peerDropped, bus1_queue_remove, hq]
  · simp [wRemove, peerDropped, h]

lemma wRemove_nodeStamp (w : World) (p q : PeerId) (node n : Nat) :
    nodeStamp (wRemove w p node).1 q n =
      if q = p ∧ n = node then none else nodeStamp w q n := by
  by_cases h : q = p
  · subst h
    simp only [wRemove, nodeStamp, updPeer_peers, log_peers, if_pos rfl, if_true,
               true_and]
    rw [remove_find]
    by_cases hn : n = node <;> simp [hn]
  · simp [wRemove, nodeStamp, h]

@[simp] lemma wRemove_mem (w : World) (p : PeerId) (node : Nat) :
    (wRemove w p node).1.mem = w.mem := rfl
@[simp] lemma wRemove_faults (w : World) (p : PeerId) (node : Nat) :
    (wRemove w p node).1.faults = w.faults := rfl
@[simp] lemma wRemove_export_id (w : World) (p : PeerId) (node : Nat) :
    (wRemove w p node).1.export_id = w.export_id := rfl
@[simp] lemma wRemove_freed (w : World) (p : PeerId) (node : Nat) :
    (wRemove w p node).1.freed = w.freed := rfl
@[simp] lemma wRemove_events (w : World) (p : PeerId) (node : Nat) :
    (wRemove w p node).1.events = w.events ++ [.remove p node] := rfl

@[simp] lemma wWake_peerClock (w : World) (p q : PeerId) :
    peerClock (wWake w p) q = peerClock w q := rfl
@[simp] lemma wWake_peerDropped (w : World) (p q : PeerId) :
    peerDropped (wWake w p) q = peerDropped w q := rfl
@[simp] lemma wWake_nodeStamp (w : World) (p q : PeerId) (n : Nat) :
    nodeStamp (wWake w p) q n = nodeStamp w q n := rfl
@[simp] lemma wWake_mem (w : World) (p : PeerId) : (wWake w p).mem = w.mem := rfl
@[simp] lemma wWake_faults (w : World) (p : PeerId) : (wWake w p).faults = w.faults := rfl
@[simp] lemma wWake_freed (w : World) (p : PeerId) : (wWake w p).freed = w.freed := rfl
@[simp] lemma wWake_events (w : World) (p : PeerId) :
    (wWake w p).events = w.events ++ [.wake p] := rfl
@[simp] lemma wWake_export_id (w : World) (p : PeerId) :
    (wWake w p).export_id = w.export_id := rfl

@[simp] lemma put_user_peers (w : World) (v : Nat) (ptr : Ptr) :
    (put_user w v ptr).1.peers = w.peers := by
  by_cases h : w.faults ptr <;> simp [put_user, h]
@[simp] lemma put_user_peerClock (w : World) (v : Nat) (ptr : Ptr) (q : PeerId) :
    peerClock (put_user w v ptr).1 q = peerClock w q := by
  simp [peerClock]
@[simp] lemma put_user_peerDropped (w : World) (v : Nat) (ptr : Ptr) (q : PeerId) :
    peerDropped (put_user w v ptr).1 q = peerDropped w q := by
  simp [peerDropped]
@[simp] lemma put_user_nodeStamp (w : World) (v : Nat) (ptr : Ptr) (q : PeerId)
    (n : Nat) : nodeStamp (put_user w v ptr).1 q n = nodeStamp w q n := by
  simp [nodeStamp]
@[simp] lemma put_user_snd (w : World) (v : Nat) (ptr : Ptr) :
    (put_user w v ptr).2 = w.faults ptr := by
  by_cases h : w.faults ptr <;> simp [put_user, h]
@[simp] lemma put_user_faults (w : World) (v : Nat) (ptr : Ptr) :
    (put_user w v ptr).1.faults = w.faults := by
  by_cases h : w.faults ptr <;> simp [put_user, h]
@[simp] lemma put_user_export_id (w : World) (v : Nat) (ptr : Ptr) :
    (put_user w v ptr).1.export_id = w.export_id := by
  by_cases h : w.faults ptr <;> simp [put_user, h]
@[simp] lemma put_user_freed (w : World) (v : Nat) (ptr : Ptr) :
    (put_user w v ptr).1.freed = w.freed := by
  by_cases h : w.faults ptr <;> simp [put_user, h]
@[simp] lemma put_user_events (w : World) (v : Nat) (ptr : Ptr) :
    (put_user w v ptr).1.events = w.events ++ [.put ptr v (!w.faults ptr)] := by
  by_cases h : w.faults ptr <;> simp [put_user, h]
lemma put_user_mem (w : World) (v : Nat) (ptr q : Ptr) :
    (put_user w v ptr).1.mem q =
      if w.faults ptr then w.mem q else if q = ptr then v else w.mem q := by
  by_cases h : w.faults ptr <;> simp [put_user, h]

@[simp] lemma wFreeMsg_peers (w : World) (n : Nat) :
    (wFreeMsg w n).peers = w.peers := rfl
@[simp] lemma wFreeMsg_peerClock (w : World) (n : Nat) (q : PeerId) :
    peerClock (wFreeMsg w n) q = peerClock w q := rfl
@[simp] lemma wFreeMsg_peerDropped (w : World) (n : Nat) (q : PeerId) :
    peerDropped (wFreeMsg w n) q = peerDropped w q := rfl
@[simp] lemma wFreeMsg_nodeStamp (w : World) (n : Nat) (q : PeerId) (m : Nat) :
    nodeStamp (wFreeMsg w n) q m = nodeStamp w q m := rfl
@[simp] lemma wFreeMsg_mem (w : World) (n : Nat) : (wFreeMsg w n).mem = w.mem := rfl
@[simp] lemma wFreeMsg_faults (w : World) (n : Nat) :
    (wFreeMsg w n).faults = w.faults := rfl
@[simp] lemma wFreeMsg_freed (w : World) (n : Nat) :
    (wFreeMsg w n).freed = w.freed ++ [n] := rfl
@[simp] lemma wFreeMsg_events (w : World) (n : Nat) :
    (wFreeMsg w n).events = w.events ++ [.freeMsg n] := rfl
@[simp] lemma wFreeMsg_export_id (w : World) (n : Nat) :
    (wFreeMsg w n).export_id = w.export_id := rfl

@[simp] lemma setMsgDest_peers (w : World) (n i : Nat) :
    (setMsgDest w n i).peers = w.peers := rfl
@[simp] lemma setMsgDest_peerClock (w : World) (n i : Nat) (q : PeerId) :
    peerClock (setMsgDest w n i) q = peerClock w q := rfl
@[simp] lemma setMsgDest_peerDropped (w : World) (n i : Nat) (q : PeerId) :
    peerDropped (setMsgDest w n i) q = peerDropped w q := rfl
@[simp] lemma setMsgDest_nodeStamp (w : World) (n i : Nat) (q : PeerId)
    (m : Nat) : nodeStamp (setMsgDest w n i) q m = nodeStamp w q m := rfl
@[simp] lemma setMsgDest_mem (w : World) (n i : Nat) :
    (setMsgDest w n i).mem = w.mem := rfl
@[simp] lemma setMsgDest_faults (w : World) (n i : Nat) :
    (setMsgDest w n i).faults = w.faults := rfl
@[simp] lemma setMsgDest_export_id (w : World) (n i : Nat) :
    (setMsgDest w n i).export_id = w.export_id := rfl
@[simp] lemma setMsgDest_freed (w : World) (n i : Nat) :
    (setMsgDest w n i).freed = w.freed := rfl
@[simp] lemma setMsgDest_events (w : World) (n i : Nat) :
    (setMsgDest w n i).events = w.events := rfl

@[simp] lemma log_peerClock (w : World) (e : Event) (q : PeerId) :
    peerClock (w.log e) q = peerClock w q := rfl

@[simp] lemma log_peerDropped (w : World) (e : Event) (q : PeerId) :
    peerDropped (w.log e) q = peerDropped w q := rfl

@[simp] lemma log_nodeStamp (w : World) (e : Event) (q : PeerId) (n : Nat) :
    nodeStamp (w.log e) q n = nodeStamp w q n := rfl

@[simp] lemma updPeer_peerClock (w : World) (p : PeerId) (pi : bus1_peer_info)
    (q : PeerId) :
    peerClock (updPeer w p pi) q = if q = p then pi.queue.clock
      else peerClock w q := by
  by_cases h : q = p <;> simp [peerClock, updPeer, h]

@[simp] lemma updPeer_peerDropped (w : World) (p : PeerId)
    (pi : bus1_peer_info) (q : PeerId) :
    peerDropped (updPeer w p pi) q = if q = p then pi.n_dropped
      else peerDropped w q := by
  by_cases h : q = p <;> simp [peerDropped, updPeer, h]

@[simp] lemma updPeer_nodeStamp_same_queue (w : World) (p : PeerId) (nd : Nat)
    (q : PeerId) (n : Nat) :
    nodeStamp (updPeer w p { queue := (w.peers p).queue, n_dropped := nd })
      q n = nodeStamp w q n := by
  by_cases h : q = p <;> simp [nodeStamp, updPeer, h]

@[simp] lemma updPeer_nodeStamp (w : World) (p : PeerId) (pi : bus1_peer_info)
    (q : PeerId) (n : Nat) :
    nodeStamp (updPeer w p pi) q n =
      if q = p then (pi.queue.nodes.find? (fun e => e.1 == n)).map (fun x => x.2)
      else nodeStamp w q n := by
  by_cases h : q = p <;> simp [nodeStamp, updPeer, h]

@[simp] lemma find?_as_nodeStamp (w : World) (q : PeerId) (n : Nat) :
    ((w.peers q).queue.nodes.find? (fun e => e.1 == n)).map (fun x => x.2) =
      nodeStamp w q n := rfl

@[simp] lemma clock_as_peerClock (w : World) (q : PeerId) :
    (w.peers q).queue.clock = peerClock w q := rfl

@[simp] lemma ndropped_as_peerDropped (w : World) (q : PeerId) :
    (w.peers q).n_dropped = peerDropped w q := rfl

end OpLemmas

section ConsumeLemmas

/-- The conditions under which the commit pass actually publishes an entry:
it carries a slice, its node is still linked, and the id export does not
report a destroyed node. -/
def commitHappens (w : World) (msg : bus1_message) (dest : bus1_handle_dest)
    (t : Nat) : Prop :=
  msg.slice.isSome = true ∧
  bus1_queue_node_is_queued (w.peers dest.raw_peer).queue msg.node = true ∧
  w.export_id dest.raw_peer t ≠ BUS1_HANDLE_INVALID

instance (w : World) (msg : bus1_message) (dest : bus1_handle_dest) (t : Nat) :
    Decidable (commitHappens w msg dest t) := by
  unfold commitHappens
  infer_instance

lemma consume_peerClock (w : World) (tx : bus1_transaction)
    (msg : bus1_message) (dest : bus1_handle_dest) (t : Nat) (ht : t ≠ 0)
    (q : PeerId) :
    peerClock (bus1_transaction_consume w tx msg dest t).1 q = peerClock w q := by
  simp only [bus1_transaction_consume, if_neg ht]
  cases hs : msg.slice <;> cases hip : dest.idp <;> dsimp only <;>
    split_ifs <;> simp_all <;> (intro h; subst h; rfl)

lemma consume_faults (w : World) (tx : bus1_transaction)
    (msg : bus1_message) (dest : bus1_handle_dest) (t : Nat) (ht : t ≠ 0) :
    (bus1_transaction_consume w tx msg dest t).1.faults = w.faults := by
  simp only [bus1_transaction_consume, if_neg ht]
  cases hs : msg.slice <;> cases hip : dest.idp <;> dsimp only <;>
    split_ifs <;> simp

lemma consume_export_id (w : World) (tx : bus1_transaction)
    (msg : bus1_message) (dest : bus1_handle_dest) (t : Nat) (ht : t ≠ 0) :
    (bus1_transaction_consume w tx msg dest t).1.export_id = w.export_id := by
  simp only [bus1_transaction_consume, if_neg ht]
  cases hs : msg.slice <;> cases hip : dest.idp <;> dsimp only <;>
    split_ifs <;> simp

lemma consume_nodeStamp (w : World) (tx : bus1_transaction)
    (msg : bus1_message) (dest : bus1_handle_dest) (t : Nat) (ht : t ≠ 0)
    (q : PeerId) (n : Nat) :
    nodeStamp (bus1_transaction_consume w tx msg dest t).1 q n =
      if q = dest.raw_peer ∧ n = msg.node then
        (if commitHappens w msg dest t then some t else none)
      else nodeStamp w q n := by
  simp only [bus1_transaction_consume, if_neg ht]
  cases hs : msg.slice <;> cases hip : dest.idp <;> dsimp only <;>
    split_ifs with h1 h2 h3 h4 h5 h6 <;>
    by_cases hqd : q = dest.raw_peer <;> by_cases hnn : n = msg.node <;>
    simp_all [commitHappens, wStage_nodeStamp, wRemove_nodeStamp]

lemma consume_peerDropped (w : World) (tx : bus1_transaction)
    (msg : bus1_message) (dest : bus1_handle_dest) (t : Nat) (ht : t ≠ 0)
    (q : PeerId) :
    peerDropped (bus1_transaction_consume w tx msg dest t).1 q =
      if q = dest.raw_peer ∧ msg.slice = none then peerDropped w q + 1
      else peerDropped w q := by
  simp only [bus1_transaction_consume, if_neg ht]
  cases hs : msg.slice <;> cases hip : dest.idp <;> dsimp only <;>
    split_ifs with h1 h2 h3 h4 h5 h6 <;>
    by_cases hqd : q = dest.raw_peer <;>
    simp_all

lemma consume_freed (w : World) (tx : bus1_transaction)
    (msg : bus1_message) (dest : bus1_handle_dest) (t : Nat) (ht : t ≠ 0) :
    (bus1_transaction_consume w tx msg dest t).1.freed =
      if commitHappens w msg dest t then w.freed
      else w.freed ++ [msg.node] := by
  simp only [bus1_transaction_consume, if_neg ht]
  cases hs : msg.slice <;> cases hip : dest.idp <;> dsimp only <;>
    split_ifs <;> simp_all [commitHappens]

lemma consume_ret (w : World) (tx : bus1_transaction)
    (msg : bus1_message) (dest : bus1_handle_dest) (t : Nat) (ht : t ≠ 0) :
    (bus1_transaction_consume w tx msg dest t).2 =
      if (msg.slice = none ∨
            bus1_queue_node_is_queued (w.peers dest.raw_peer).queue msg.node
              = true) ∧
          entryFault w (msg, dest) = true then -EFAULT
      else if msg.slice = none ∨ commitHappens w msg dest t then 0
      else -EHOSTUNREACH := by
  simp only [bus1_transaction_consume, if_neg ht]
  cases hs : msg.slice <;> cases hip : dest.idp <;> dsimp only <;>
    split_ifs <;> simp_all [commitHappens, entryFault]

lemma consume_mem (w : World) (tx : bus1_transaction)
    (msg : bus1_message) (dest : bus1_handle_dest) (t : Nat) (ht : t ≠ 0)
    (q : Ptr) :
    (bus1_transaction_consume w tx msg dest t).1.mem q =
      if msg.slice = none ∨
          bus1_queue_node_is_queued (w.peers dest.raw_peer).queue msg.node
            = true then
        (match dest.idp with
         | some p =>
            if w.faults p then w.mem q
            else if q = p then
              (if msg.slice = none then BUS1_HANDLE_INVALID
               else w.export_id dest.raw_peer t)
            else w.mem q
         | none => w.mem q)
      else w.mem q := by
  simp only [bus1_transaction_consume, if_neg ht]
  cases hs : msg.slice <;> cases hip : dest.idp <;> dsimp only <;>
    split_ifs <;> simp_all [put_user_mem]

lemma consume_events (w : World) (tx : bus1_transaction)
    (msg : bus1_message) (dest : bus1_handle_dest) (t : Nat) (ht : t ≠ 0) :
    ∃ δ, (bus1_transaction_consume w tx msg dest t).1.events =
        w.events ++ δ ∧
      (∀ ev ∈ δ, isClockAdv ev = false) ∧
      (∀ p n t', Event.stage p n t' ∈ δ → t' = t) := by
  simp only [bus1_transaction_consume, if_neg ht]
  cases hs : msg.slice <;> cases hip : dest.idp <;> dsimp only <;>
    split_ifs <;>
    (simp only [wTick_events, wSync_events, wStage_events, wRemove_events,
       wWake_events, put_user_events, wFreeMsg_events, log_events,
       setMsgDest_events, updPeer_events, List.append_assoc,
       List.singleton_append, List.cons_append, List.nil_append]
     refine ⟨_, rfl, ?_, ?_⟩
     · intro ev hev
       simp only [List.mem_cons, List.not_mem_nil, or_false] at hev
       repeat' (first | (rcases hev with rfl | hev) | (subst hev))
       all_goals rfl
     · intro p n t' hmem
       simp only [List.mem_cons, List.not_mem_nil, or_false] at hmem
       repeat' rcases hmem with hmem | hmem
       all_goals
         first
         | rfl
         | (injection hmem with h1 h2 h3; exact h3)
         | (injection hmem))

end ConsumeLemmas

/-- Clock-protocol operations (ticks, syncs and stagings) among the events. -/
def isClockOp : Event → Bool
  | .tick _ _ => true
  | .sync _ _ _ => true
  | .stage _ _ _ => true
  | _ => false

/-- The clock-protocol skeleton of a trace. -/
def clockOps (evs : List Event) : List Event := evs.filter isClockOp

/-- Following the spec's words (§4.5, staging pass): "For every entry in
order, under the destination peer lock: `t0 = sync(dest.queue, t0);
t0 = tick(dest.queue); stage(dest.queue, entry.node, t0 − 1)`."  Stated on
the clocks alone; returns the final clocks, the final `t0` and the clock
operations performed. -/
def spec_staging (clocks : PeerId → Nat) (t0 : Nat) :
    List (bus1_message × bus1_handle_dest) →
      (PeerId → Nat) × Nat × List Event
  | [] => (clocks, t0, [])
  | e :: es =>
    let d := e.2.raw_peer
    let a := max (clocks d) t0
    let b := a + 1
    let r := spec_staging (fun p => if p = d then b else clocks p) b es
    (r.1, r.2.1,
      .sync d t0 a :: .tick d b :: .stage d e.1.node (b - 1) :: r.2.2)

/-- Following the spec's words (§4.5, side-channel sync pass): "For every
entry: `sync(dest.queue, t0)`." -/
def spec_syncpass (clocks : PeerId → Nat) (t0 : Nat) :
    List (bus1_message × bus1_handle_dest) → (PeerId → Nat) × List Event
  | [] => (clocks, [])
  | e :: es =>
    let d := e.2.raw_peer
    let a := max (clocks d) t0
    let r := spec_syncpass (fun p => if p = d then a else clocks p) t0 es
    (r.1, .sync d t0 a :: r.2)

section PassLemmas

lemma stagingStep_snd (w : World) (t : Nat)
    (e : bus1_message × bus1_handle_dest) :
    (stagingStep (w, t) e).2 = max (peerClock w e.2.raw_peer) t + 1 := by
  simp [stagingStep]

lemma stagingStep_peerClock (w : World) (t : Nat)
    (e : bus1_message × bus1_handle_dest) (q : PeerId) :
    peerClock (stagingStep (w, t) e).1 q =
      if q = e.2.raw_peer then max (peerClock w e.2.raw_peer) t + 1
      else peerClock w q := by
  simp only [stagingStep]
  split <;> by_cases h : q = e.2.raw_peer <;> simp [h]

lemma stagingStep_nodeStamp (w : World) (t : Nat)
    (e : bus1_message × bus1_handle_dest) (q : PeerId) (n : Nat) :
    nodeStamp (stagingStep (w, t) e).1 q n =
      if q = e.2.raw_peer ∧ n = e.1.node then
        some (max (peerClock w e.2.raw_peer) t)
      else nodeStamp w q n := by
  simp only [stagingStep]
  split <;>
    by_cases h1 : q = e.2.raw_peer <;> by_cases h2 : n = e.1.node <;>
    simp [h1, h2, wStage_nodeStamp]

lemma stagingStep_faults (w : World) (t : Nat)
    (e : bus1_message × bus1_handle_dest) :
    (stagingStep (w, t) e).1.faults = w.faults := by
  simp only [stagingStep]
  split <;> simp

lemma stagingStep_export_id (w : World) (t : Nat)
    (e : bus1_message × bus1_handle_dest) :
    (stagingStep (w, t) e).1.export_id = w.export_id := by
  simp only [stagingStep]
  split <;> simp

lemma stagingStep_mem (w : World) (t : Nat)
    (e : bus1_message × bus1_handle_dest) :
    (stagingStep (w, t) e).1.mem = w.mem := by
  simp only [stagingStep]
  split <;> simp

lemma stagingStep_freed (w : World) (t : Nat)
    (e : bus1_message × bus1_handle_dest) :
    (stagingStep (w, t) e).1.freed = w.freed := by
  simp only [stagingStep]
  split <;> simp

lemma stagingStep_peerDropped (w : World) (t : Nat)
    (e : bus1_message × bus1_handle_dest) (q : PeerId) :
    peerDropped (stagingStep (w, t) e).1 q = peerDropped w q := by
  simp only [stagingStep]
  split <;> by_cases h : q = e.2.raw_peer <;> simp [h]

lemma stagingStep_events (w : World) (t : Nat)
    (e : bus1_message × bus1_handle_dest) :
    (stagingStep (w, t) e).1.events = w.events ++
      (.sync e.2.raw_peer t (max (peerClock w e.2.raw_peer) t) ::
       .tick e.2.raw_peer (max (peerClock w e.2.raw_peer) t + 1) ::
       .stage e.2.raw_peer e.1.node (max (peerClock w e.2.raw_peer) t + 1 - 1)
         :: []) ∨
    (stagingStep (w, t) e).1.events = w.events ++
      (.sync e.2.raw_peer t (max (peerClock w e.2.raw_peer) t) ::
       .tick e.2.raw_peer (max (peerClock w e.2.raw_peer) t + 1) ::
       .stage e.2.raw_peer e.1.node (max (peerClock w e.2.raw_peer) t + 1 - 1)
         :: .wake e.2.raw_peer :: []) := by
  simp only [stagingStep]
  split
  · right
    simp [List.append_assoc]
  · left
    simp [List.append_assoc]

lemma stagingPass_cons (w : World) (t : Nat)
    (e : bus1_message × bus1_handle_dest)
    (es : List (bus1_message × bus1_handle_dest)) :
    stagingPass w (e :: es) t =
      stagingPass (stagingStep (w, t) e).1 es (stagingStep (w, t) e).2 := rfl

lemma stagingPass_facts (es : List (bus1_message × bus1_handle_dest)) :
    ∀ (w : World) (t : Nat),
    (stagingPass w es t).1.faults = w.faults ∧
    (stagingPass w es t).1.export_id = w.export_id ∧
    (stagingPass w es t).1.mem = w.mem ∧
    (stagingPass w es t).1.freed = w.freed ∧
    (∀ q, peerDropped (stagingPass w es t).1 q = peerDropped w q) := by
  induction es with
  | nil => intro w t; exact ⟨rfl, rfl, rfl, rfl, fun q => rfl⟩
  | cons e es ih =>
    intro w t
    rw [stagingPass_cons]
    obtain ⟨h1, h2, h3, h4, h5⟩ := ih (stagingStep (w, t) e).1 (stagingStep (w, t) e).2
    refine ⟨?_, ?_, ?_, ?_, ?_⟩
    · rw [h1, stagingStep_faults]
    · rw [h2, stagingStep_export_id]
    · rw [h3, stagingStep_mem]
    · rw [h4, stagingStep_freed]
    · intro q; rw [h5 q, stagingStep_peerDropped]

lemma stagingPass_isSome_preserved
    (es : List (bus1_message × bus1_handle_dest)) :
    ∀ (w : World) (t : Nat) (q : PeerId) (n : Nat),
    (nodeStamp w q n).isSome = true →
    (nodeStamp (stagingPass w es t).1 q n).isSome = true := by
  induction es with
  | nil => intro w t q n h; exact h
  | cons e es ih =>
    intro w t q n h
    rw [stagingPass_cons]
    refine ih _ _ q n ?_
    rw [stagingStep_nodeStamp]
    split <;> simp_all

lemma stagingPass_isSome (es : List (bus1_message × bus1_handle_dest)) :
    ∀ (w : World) (t : Nat) (e : bus1_message × bus1_handle_dest),
    e ∈ es →
    (nodeStamp (stagingPass w es t).1 e.2.raw_peer e.1.node).isSome = true := by
  induction es with
  | nil => intro w t e he; exact absurd he (List.not_mem_nil e)
  | cons f es ih =>
    intro w t e he
    rw [stagingPass_cons]
    rcases List.mem_cons.mp he with rfl | he
    · refine stagingPass_isSome_preserved es _ _ _ _ ?_
      rw [stagingStep_nodeStamp]
      simp
    · exact ih _ _ e he

lemma stagingPass_spec (es : List (bus1_message × bus1_handle_dest)) :
    ∀ (w : World) (t : Nat),
    (stagingPass w es t).2 = (spec_staging (peerClock w) t es).2.1 ∧
    (∀ q, peerClock (stagingPass w es t).1 q =
      (spec_staging (peerClock w) t es).1 q) ∧
    (∃ δ, (stagingPass w es t).1.events = w.events ++ δ ∧
      clockOps δ = (spec_staging (peerClock w) t es).2.2 ∧
      (∀ ev ∈ δ, isPut ev = false)) := by
  induction es with
  | nil =>
    intro w t
    exact ⟨rfl, fun q => rfl, [], by simp [stagingPass], rfl, by simp⟩
  | cons e es ih =>
    intro w t
    rw [stagingPass_cons]
    obtain ⟨h1, h2, h3⟩ := ih (stagingStep (w, t) e).1 (stagingStep (w, t) e).2
    have hck : peerClock (stagingStep (w, t) e).1 =
        (fun p => if p = e.2.raw_peer
          then max (peerClock w e.2.raw_peer) t + 1 else peerClock w p) :=
      funext (fun q => stagingStep_peerClock w t e q)
    have hsnd := stagingStep_snd w t e
    refine ⟨?_, ?_, ?_⟩
    · rw [h1, hck, hsnd]
      rfl
    · intro q
      rw [h2 q, hck, hsnd]
      rfl
    · obtain ⟨δ, hδ1, hδ2, hδ3⟩ := h3
      rcases stagingStep_events w t e with hev | hev
      · refine ⟨[Event.sync e.2.raw_peer t (max (peerClock w e.2.raw_peer) t),
          Event.tick e.2.raw_peer (max (peerClock w e.2.raw_peer) t + 1),
          Event.stage e.2.raw_peer e.1.node
            (max (peerClock w e.2.raw_peer) t + 1 - 1)] ++ δ, ?_, ?_, ?_⟩
        · rw [hδ1, hev, List.append_assoc]
        · have hδ2' : List.filter isClockOp δ =
              (spec_staging (peerClock (stagingStep (w, t) e).1)
                (stagingStep (w, t) e).2 es).2.2 := hδ2
          simp only [clockOps, List.filter_append, hδ2', hck, hsnd]
          simp [spec_staging, isClockOp]
        · intro ev hv
          rcases List.mem_append.mp hv with hv | hv
          · fin_cases hv <;> rfl
          · exact hδ3 ev hv
      · refine ⟨[Event.sync e.2.raw_peer t (max (peerClock w e.2.raw_peer) t),
          Event.tick e.2.raw_peer (max (peerClock w e.2.raw_peer) t + 1),
          Event.stage e.2.raw_peer e.1.node
            (max (peerClock w e.2.raw_peer) t + 1 - 1),
          Event.wake e.2.raw_peer] ++ δ, ?_, ?_, ?_⟩
        · rw [hδ1, hev, List.append_assoc]
        · have hδ2' : List.filter isClockOp δ =
              (spec_staging (peerClock (stagingStep (w, t) e).1)
                (stagingStep (w, t) e).2 es).2.2 := hδ2
          simp only [clockOps, List.filter_append, hδ2', hck, hsnd]
          simp [spec_staging, isClockOp]
        · intro ev hv
          rcases List.mem_append.mp hv with hv | hv
          · fin_cases hv <;> rfl
          · exact hδ3 ev hv

lemma syncPass_cons (w : World) (t0 : Nat)
    (e : bus1_message × bus1_handle_dest)
    (es : List (bus1_message × bus1_handle_dest)) :
    syncPass w (e :: es) t0 =
      syncPass (wSync w e.2.raw_peer t0).1 es t0 := rfl

lemma syncPass_facts (es : List (bus1_message × bus1_handle_dest)) :
    ∀ (w : World) (t0 : Nat),
    (syncPass w es t0).faults = w.faults ∧
    (syncPass w es t0).export_id = w.export_id ∧
    (syncPass w es t0).mem = w.mem ∧
    (syncPass w es t0).freed = w.freed ∧
    (∀ q, peerDropped (syncPass w es t0) q = peerDropped w q) ∧
    (∀ q n, nodeStamp (syncPass w es t0) q n = nodeStamp w q n) := by
  induction es with
  | nil => intro w t0; exact ⟨rfl, rfl, rfl, rfl, fun q => rfl, fun q n => rfl⟩
  | cons e es ih =>
    intro w t0
    rw [syncPass_cons]
    obtain ⟨h1, h2, h3, h4, h5, h6⟩ := ih (wSync w e.2.raw_peer t0).1 t0
    refine ⟨by rw [h1]; simp, by rw [h2]; simp, by rw [h3]; simp,
            by rw [h4]; simp, fun q => by rw [h5 q]; simp,
            fun q n => by rw [h6 q n]; simp⟩

lemma syncPass_clock_mono (es : List (bus1_message × bus1_handle_dest)) :
    ∀ (w : World) (t0 : Nat) (q : PeerId),
    peerClock w q ≤ peerClock (syncPass w es t0) q := by
  induction es with
  | nil => intro w t0 q; exact le_refl _
  | cons e es ih =>
    intro w t0 q
    rw [syncPass_cons]
    refine le_trans ?_ (ih _ t0 q)
    by_cases h : q = e.2.raw_peer <;> simp [h]

lemma syncPass_clock_ge (es : List (bus1_message × bus1_handle_dest)) :
    ∀ (w : World) (t0 : Nat) (e : bus1_message × bus1_handle_dest),
    e ∈ es → t0 ≤ peerClock (syncPass w es t0) e.2.raw_peer := by
  induction es with
  | nil => intro w t0 e he; exact absurd he (List.not_mem_nil e)
  | cons f es ih =>
    intro w t0 e he
    rcases List.mem_cons.mp he with rfl | he
    · rw [syncPass_cons]
      refine le_trans ?_ (syncPass_clock_mono es _ t0 e.2.raw_peer)
      simp
    · rw [syncPass_cons]
      exact ih _ t0 e he

lemma syncPass_spec (es : List (bus1_message × bus1_handle_dest)) :
    ∀ (w : World) (t0 : Nat),
    (∀ q, peerClock (syncPass w es t0) q =
      (spec_syncpass (peerClock w) t0 es).1 q) ∧
    (syncPass w es t0).events =
      w.events ++ (spec_syncpass (peerClock w) t0 es).2 := by
  induction es with
  | nil =>
    intro w t0
    exact ⟨fun q => rfl, by simp [syncPass, spec_syncpass]⟩
  | cons e es ih =>
    intro w t0
    rw [syncPass_cons]
    obtain ⟨h1, h2⟩ := ih (wSync w e.2.raw_peer t0).1 t0
    have hck : peerClock (wSync w e.2.raw_peer t0).1 =
        (fun p => if p = e.2.raw_peer
          then max (peerClock w e.2.raw_peer) t0 else peerClock w p) :=
      funext (fun q => wSync_peerClock w e.2.raw_peer q t0)
    refine ⟨?_, ?_⟩
    · intro q
      rw [h1 q, hck]
      rfl
    · rw [h2, hck]
      simp [spec_syncpass, List.append_assoc]

lemma stagingPass_le (es : List (bus1_message × bus1_handle_dest)) :
    ∀ (w : World) (t : Nat), t ≤ (stagingPass w es t).2 := by
  induction es with
  | nil => intro w t; exact le_refl _
  | cons e es ih =>
    intro w t
    rw [stagingPass_cons]
    refine le_trans ?_ (ih _ _)
    rw [stagingStep_snd]
    omega

end PassLemmas

section CommitPassLemmas

/-- Whether the commit pass attempts the id write-back for an entry, given
the world at the start of the pass: sliceless entries always write the
invalid id, sliced ones only while their node is still linked. -/
def entryAttempted (w : World) (e : bus1_message × bus1_handle_dest) : Bool :=
  e.1.slice.isNone ||
  bus1_queue_node_is_queued (w.peers e.2.raw_peer).queue e.1.node

lemma entryFault_congr {w' w : World} (e : bus1_message × bus1_handle_dest)
    (h : w'.faults = w.faults) : entryFault w' e = entryFault w e := by
  cases hip : e.2.idp <;> simp [entryFault, hip, h]

lemma queued_congr {w' w : World} (p : PeerId) (n : Nat)
    (h : nodeStamp w' p n = nodeStamp w p n) :
    bus1_queue_node_is_queued (w'.peers p).queue n =
      bus1_queue_node_is_queued (w.peers p).queue n := by
  rw [← nodeStamp_isSome_iff_queued, ← nodeStamp_isSome_iff_queued, h]

lemma entryAttempted_congr {w' w : World} (e : bus1_message × bus1_handle_dest)
    (h : nodeStamp w' e.2.raw_peer e.1.node = nodeStamp w e.2.raw_peer e.1.node) :
    entryAttempted w' e = entryAttempted w e := by
  rw [entryAttempted, entryAttempted, queued_congr _ _ h]

lemma commitHappens_congr {w' w : World} (msg : bus1_message)
    (dest : bus1_handle_dest) (t : Nat)
    (h : nodeStamp w' dest.raw_peer msg.node = nodeStamp w dest.raw_peer msg.node)
    (hex : w'.export_id = w.export_id) :
    commitHappens w' msg dest t ↔ commitHappens w msg dest t := by
  rw [commitHappens, commitHappens, queued_congr _ _ h, hex]

lemma entryAttempted_true_iff (w : World) (e : bus1_message × bus1_handle_dest) :
    entryAttempted w e = true ↔
      (e.1.slice = none ∨
        bus1_queue_node_is_queued (w.peers e.2.raw_peer).queue e.1.node = true) := by
  cases hs : e.1.slice <;> simp [entryAttempted, hs]

lemma any_congr_on_mem {α : Type} (l : List α) (f g : α → Bool)
    (h : ∀ a ∈ l, f a = g a) : l.any f = l.any g := by
  induction l with
  | nil => rfl
  | cons a l ih =>
    simp only [List.any_cons]
    rw [h a (List.mem_cons_self a l), ih (fun b hb => h b (List.mem_cons_of_mem a hb))]

/-- The commit-pass fold with an arbitrary latched result. -/
def commitFold (tx : bus1_transaction) (t0 : Nat) (w : World) (res0 : Int)
    (es : List (bus1_message × bus1_handle_dest)) : World × Int :=
  es.foldl (fun acc e =>
    let s := bus1_transaction_consume acc.1 tx e.1 e.2 t0
    (s.1, if s.2 = -EFAULT then s.2 else acc.2)) (w, res0)

lemma commitPass_eq_fold (w : World) (tx : bus1_transaction)
    (es : List (bus1_message × bus1_handle_dest)) (t0 : Nat) :
    commitPass w tx es t0 = commitFold tx t0 w 0 es := rfl

lemma commitFold_cons (tx : bus1_transaction) (t0 : Nat) (w : World)
    (res0 : Int) (e : bus1_message × bus1_handle_dest)
    (es : List (bus1_message × bus1_handle_dest)) :
    commitFold tx t0 w res0 (e :: es) =
      commitFold tx t0 (bus1_transaction_consume w tx e.1 e.2 t0).1
        (if (bus1_transaction_consume w tx e.1 e.2 t0).2 = -EFAULT
         then (bus1_transaction_consume w tx e.1 e.2 t0).2 else res0) es := rfl

/-- The commit pass, characterized entry by entry (for pairwise-distinct
node identities): clocks are untouched, every entry for which the commit
conditions hold ends linked at exactly `t0`, every other entry ends
unlinked and freed, the result latches `-EFAULT` exactly when some
attempted id write-back faults, each sliceless entry bumps its
destination's drop counter, and the pass performs no clock advance and no
staging at any timestamp other than `t0`. -/
lemma commitFold_facts (tx : bus1_transaction) (t0 : Nat) (ht : t0 ≠ 0)
    (es : List (bus1_message × bus1_handle_dest)) :
    ∀ (w : World) (res0 : Int),
    (es.map (fun e => e.1.node)).Nodup →
    (∀ q, peerClock (commitFold tx t0 w res0 es).1 q = peerClock w q) ∧
    (commitFold tx t0 w res0 es).1.faults = w.faults ∧
    (commitFold tx t0 w res0 es).1.export_id = w.export_id ∧
    (∃ γ, (commitFold tx t0 w res0 es).1.freed = w.freed ++ γ) ∧
    (∀ q n, (∀ e ∈ es, ¬(q = e.2.raw_peer ∧ n = e.1.node)) →
      nodeStamp (commitFold tx t0 w res0 es).1 q n = nodeStamp w q n) ∧
    (∀ e ∈ es,
      (commitHappens w e.1 e.2 t0 →
        nodeStamp (commitFold tx t0 w res0 es).1 e.2.raw_peer e.1.node
          = some t0) ∧
      (¬commitHappens w e.1 e.2 t0 →
        nodeStamp (commitFold tx t0 w res0 es).1 e.2.raw_peer e.1.node
            = none ∧
          e.1.node ∈ (commitFold tx t0 w res0 es).1.freed)) ∧
    ((commitFold tx t0 w res0 es).2 =
      if es.any (fun e => entryAttempted w e && entryFault w e) then -EFAULT
      else res0) ∧
    (∀ q, peerDropped (commitFold tx t0 w res0 es).1 q =
      peerDropped w q +
        es.countP (fun e => e.2.raw_peer == q && e.1.slice.isNone)) ∧
    (∀ q, (∀ e ∈ es, e.2.idp ≠ some q) →
      (commitFold tx t0 w res0 es).1.mem q = w.mem q) ∧
    (∃ δ, (commitFold tx t0 w res0 es).1.events = w.events ++ δ ∧
      (∀ ev ∈ δ, isClockAdv ev = false) ∧
      (∀ p n t', Event.stage p n t' ∈ δ → t' = t0)) := by
  induction es with
  | nil =>
    intro w res0 _
    exact ⟨fun q => rfl, rfl, rfl, ⟨[], by simp [commitFold]⟩, fun q n _ => rfl,
      fun e he => absurd he (List.not_mem_nil e), by simp [commitFold],
      fun q => by simp [commitFold], fun q _ => rfl,
      ⟨[], by simp [commitFold], by simp, by simp⟩⟩
  | cons e es ih =>
    intro w res0 hnd
    rw [commitFold_cons]
    rw [List.map_cons, List.nodup_cons] at hnd
    obtain ⟨hnotmem, hndtail⟩ := hnd
    obtain ⟨A1, A2, A3, A4, A5, A6, A7, A8, A9, A10⟩ :=
      ih (bus1_transaction_consume w tx e.1 e.2 t0).1
        (if (bus1_transaction_consume w tx e.1 e.2 t0).2 = -EFAULT
         then (bus1_transaction_consume w tx e.1 e.2 t0).2 else res0) hndtail
    have hcf := consume_faults w tx e.1 e.2 t0 ht
    have hce := consume_export_id w tx e.1 e.2 t0 ht
    have hcc := consume_peerClock w tx e.1 e.2 t0 ht
    have hcn := consume_nodeStamp w tx e.1 e.2 t0 ht
    have hcd := consume_peerDropped w tx e.1 e.2 t0 ht
    have hcfr := consume_freed w tx e.1 e.2 t0 ht
    have hcr := consume_ret w tx e.1 e.2 t0 ht
    have hcm := consume_mem w tx e.1 e.2 t0 ht
    -- nodes of tail entries are untouched by the head consume
    have htail_stamp : ∀ e' ∈ es,
        nodeStamp (bus1_transaction_consume w tx e.1 e.2 t0).1
          e'.2.raw_peer e'.1.node = nodeStamp w e'.2.raw_peer e'.1.node := by
      intro e' he'
      rw [hcn]
      have : ¬(e'.2.raw_peer = e.2.raw_peer ∧ e'.1.node = e.1.node) := by
        rintro ⟨h1, h2⟩
        exact hnotmem (by
          rw [← h2]
          exact List.mem_map_of_mem (fun x => x.1.node) he')
      simp [this]
    refine ⟨?_, ?_, ?_, ?_, ?_, ?_, ?_, ?_, ?_, ?_⟩
    · intro q
      rw [A1 q, hcc q]
    · rw [A2, hcf]
    · rw [A3, hce]
    · obtain ⟨γ, hγ⟩ := A4
      by_cases hch : commitHappens w e.1 e.2 t0
      · exact ⟨γ, by rw [hγ, hcfr, if_pos hch]⟩
      · exact ⟨[e.1.node] ++ γ, by
          rw [hγ, hcfr, if_neg hch, List.append_assoc]⟩
    · intro q n hq
      rw [A5 q n (fun e' he' => hq e' (List.mem_cons_of_mem e he')), hcn]
      have := hq e (List.mem_cons_self e es)
      simp [this]
    · intro e' he'
      rcases List.mem_cons.mp he' with rfl | he'
      · constructor
        · intro hch
          rw [A5 e'.2.raw_peer e'.1.node (fun f hf => by
            rintro ⟨h1, h2⟩
            exact hnotmem (by
              rw [h2]
              exact List.mem_map_of_mem (fun x => x.1.node) hf)), hcn]
          simp [hch]
        · intro hch
          constructor
          · rw [A5 e'.2.raw_peer e'.1.node (fun f hf => by
              rintro ⟨h1, h2⟩
              exact hnotmem (by
                rw [h2]
                exact List.mem_map_of_mem (fun x => x.1.node) hf)), hcn]
            simp [hch]
          · obtain ⟨γ, hγ⟩ := A4
            rw [hγ, hcfr, if_neg hch]
            simp
      · have hstamp := htail_stamp e' he'
        have hch_iff := commitHappens_congr e'.1 e'.2 t0 hstamp hce
        obtain ⟨B1, B2⟩ := A6 e' he'
        constructor
        · intro hch
          exact B1 (hch_iff.mpr hch)
        · intro hch
          exact B2 (fun hc => hch (hch_iff.mp hc))
    · rw [A7]
      have hany : es.any (fun f =>
          entryAttempted (bus1_transaction_consume w tx e.1 e.2 t0).1 f &&
          entryFault (bus1_transaction_consume w tx e.1 e.2 t0).1 f) =
          es.any (fun f => entryAttempted w f && entryFault w f) := by
        refine any_congr_on_mem es _ _ (fun f hf => ?_)
        rw [entryAttempted_congr f (htail_stamp f hf), entryFault_congr f hcf]
      rw [hany, List.any_cons]
      by_cases hhead : (entryAttempted w e && entryFault w e) = true
      · have hr1 : (bus1_transaction_consume w tx e.1 e.2 t0).2 = -EFAULT := by
          rw [hcr, if_pos]
          rw [Bool.and_eq_true] at hhead
          exact ⟨(entryAttempted_true_iff w e).mp hhead.1, hhead.2⟩
        rw [hr1]
        simp [hhead]
      · have hr1 : (bus1_transaction_consume w tx e.1 e.2 t0).2 ≠ -EFAULT := by
          rw [hcr]
          have : ¬((e.1.slice = none ∨
              bus1_queue_node_is_queued (w.peers e.2.raw_peer).queue e.1.node
                = true) ∧ entryFault w (e.1, e.2) = true) := by
            rintro ⟨ha, hb⟩
            exact hhead (by
              rw [Bool.and_eq_true]
              exact ⟨(entryAttempted_true_iff w e).mpr ha, hb⟩)
          rw [if_neg this]
          split_ifs <;> decide
        rw [if_neg hr1]
        rw [Bool.not_eq_true] at hhead
        rw [hhead, Bool.false_or]
    · intro q
      rw [A8 q, hcd q, List.countP_cons]
      by_cases h1 : q = e.2.raw_peer
      · by_cases h2 : e.1.slice = none
        · rw [if_pos ⟨h1, h2⟩]
          have hp : (e.2.raw_peer == q && e.1.slice.isNone) = true := by
            simp [h1, h2]
          rw [hp, if_pos rfl]
          omega
        · rw [if_neg (by rintro ⟨u, v⟩; exact h2 v)]
          have hp : (e.2.raw_peer == q && e.1.slice.isNone) = false := by
            cases hs2 : e.1.slice
            · exact absurd hs2 h2
            · simp [hs2]
          rw [hp]
          simp
      · rw [if_neg (by rintro ⟨u, v⟩; exact h1 u)]
        have hp : (e.2.raw_peer == q && e.1.slice.isNone) = false := by
          have : (e.2.raw_peer == q) = false := by
            rw [beq_eq_false_iff_ne]
            intro h
            exact h1 h.symm
          rw [this, Bool.false_and]
        rw [hp]
        simp
    · intro q hq
      rw [A9 q (fun e' he' => hq e' (List.mem_cons_of_mem e he')), hcm]
      have hhead := hq e (List.mem_cons_self e es)
      cases hip : e.2.idp with
      | none => split_ifs <;> rfl
      | some p =>
        have hqp : ¬q = p := by
          intro h
          exact hhead (by rw [hip, h])
        dsimp only
        split_ifs with hA hB hC <;>
          first | rfl | (exact absurd hC hqp)
    · obtain ⟨δ2, hδ1, hδ2, hδ3⟩ := A10
      obtain ⟨δ1, hε1, hε2, hε3⟩ := consume_events w tx e.1 e.2 t0 ht
      refine ⟨δ1 ++ δ2, ?_, ?_, ?_⟩
      · rw [hδ1, hε1, List.append_assoc]
      · intro ev hev
        rcases List.mem_append.mp hev with h | h
        · exact hε2 ev h
        · exact hδ2 ev h
      · intro p n t' hmem
        rcases List.mem_append.mp hmem with h | h
        · exact hε3 p n t' h
        · exact hδ3 p n t' h

end CommitPassLemmas

section CommitLemmas

/-- The commit timestamp: the value of the running timestamp after the
sender tick and the staging pass. -/
def commitT0 (w : World) (tx : bus1_transaction) : Nat :=
  (stagingPass (wTick w tx.peer).1 tx.entries (wTick w tx.peer).2).2

lemma commit_unfold (w : World) (tx : bus1_transaction)
    (hne : tx.entries ≠ []) :
    bus1_transaction_commit w tx =
      ((commitPass
          (syncPass (stagingPass (wTick w tx.peer).1 tx.entries
              (wTick w tx.peer).2).1 tx.entries (commitT0 w tx))
          { tx with entries := [] } tx.entries (commitT0 w tx)).1,
       { tx with entries := [] },
       (commitPass
          (syncPass (stagingPass (wTick w tx.peer).1 tx.entries
              (wTick w tx.peer).2).1 tx.entries (commitT0 w tx))
          { tx with entries := [] } tx.entries (commitT0 w tx)).2) := by
  rcases tx with ⟨p, pa, lv, fi, ents⟩
  cases ents with
  | nil => exact absurd rfl hne
  | cons a l => rfl

lemma spec_syncpass_sync (es : List (bus1_message × bus1_handle_dest)) :
    ∀ (clocks : PeerId → Nat) (t0 : Nat) (ev : Event),
    ev ∈ (spec_syncpass clocks t0 es).2 → ∃ p a v, ev = Event.sync p a v := by
  induction es with
  | nil => intro clocks t0 ev hev; exact absurd hev (List.not_mem_nil ev)
  | cons e es ih =>
    intro clocks t0 ev hev
    rcases List.mem_cons.mp hev with rfl | hev
    · exact ⟨_, _, _, rfl⟩
    · exact ih _ t0 ev hev

lemma commitT0_ne_zero (w : World) (tx : bus1_transaction) :
    commitT0 w tx ≠ 0 := by
  have h := stagingPass_le tx.entries (wTick w tx.peer).1 (wTick w tx.peer).2
  rw [wTick_snd] at h
  rw [commitT0, wTick_snd]
  omega

/-- The observable behaviour of `bus1_transaction_commit` on a non-empty
transaction with pairwise-distinct queue nodes. -/
lemma commit_facts (w : World) (tx : bus1_transaction)
    (hne : tx.entries ≠ [])
    (hnd : (tx.entries.map (fun e => e.1.node)).Nodup) :
    (bus1_transaction_commit w tx).2.1 = { tx with entries := [] } ∧
    (∀ e ∈ tx.entries,
      (e.1.slice.isSome = true ∧
          w.export_id e.2.raw_peer (commitT0 w tx) ≠ BUS1_HANDLE_INVALID →
        nodeStamp (bus1_transaction_commit w tx).1 e.2.raw_peer e.1.node
          = some (commitT0 w tx)) ∧
      (¬(e.1.slice.isSome = true ∧
          w.export_id e.2.raw_peer (commitT0 w tx) ≠ BUS1_HANDLE_INVALID) →
        nodeStamp (bus1_transaction_commit w tx).1 e.2.raw_peer e.1.node
            = none ∧
        e.1.node ∈ (bus1_transaction_commit w tx).1.freed)) ∧
    (∀ e ∈ tx.entries,
      commitT0 w tx ≤
        peerClock (bus1_transaction_commit w tx).1 e.2.raw_peer) ∧
    ((bus1_transaction_commit w tx).2.2 =
      if tx.entries.any (fun e => entryFault w e) then -EFAULT else 0) ∧
    (∀ q, peerDropped (bus1_transaction_commit w tx).1 q =
      peerDropped w q +
        tx.entries.countP (fun e => e.2.raw_peer == q && e.1.slice.isNone)) ∧
    (bus1_transaction_commit w tx).1.faults = w.faults ∧
    (∀ q, (∀ e ∈ tx.entries, e.2.idp ≠ some q) →
      (bus1_transaction_commit w tx).1.mem q = w.mem q) ∧
    (∃ δs δc,
      (bus1_transaction_commit w tx).1.events = w.events
        ++ [Event.tick tx.peer (peerClock w tx.peer + 1)]
        ++ δs
        ++ (spec_syncpass
              (peerClock (stagingPass (wTick w tx.peer).1 tx.entries
                (wTick w tx.peer).2).1)
              (commitT0 w tx) tx.entries).2
        ++ δc ∧
      clockOps δs = (spec_staging (peerClock (wTick w tx.peer).1)
        (wTick w tx.peer).2 tx.entries).2.2 ∧
      (∀ ev ∈ δs, isPut ev = false) ∧
      (∀ ev ∈ δc, isClockAdv ev = false) ∧
      (∀ p n t', Event.stage p n t' ∈ δc → t' = commitT0 w tx) ∧
      commitT0 w tx = (spec_staging (peerClock (wTick w tx.peer).1)
        (wTick w tx.peer).2 tx.entries).2.1) := by
  have ht0 := commitT0_ne_zero w tx
  rw [commit_unfold w tx hne]
  obtain ⟨SF1, SF2, SF3, SF4, SF5⟩ :=
    stagingPass_facts tx.entries (wTick w tx.peer).1 (wTick w tx.peer).2
  obtain ⟨YF1, YF2, YF3, YF4, YF5, YF6⟩ :=
    syncPass_facts tx.entries
      (stagingPass (wTick w tx.peer).1 tx.entries (wTick w tx.peer).2).1
      (commitT0 w tx)
  rw [commitPass_eq_fold]
  obtain ⟨CF1, CF2, CF3, CF4, CF5, CF6, CF7, CF8, CF9, CF10⟩ :=
    commitFold_facts { tx with entries := [] } (commitT0 w tx) ht0 tx.entries
      (syncPass (stagingPass (wTick w tx.peer).1 tx.entries
          (wTick w tx.peer).2).1 tx.entries (commitT0 w tx)) 0 hnd
  -- the world entering the commit pass
  set w2 := syncPass (stagingPass (wTick w tx.peer).1 tx.entries
      (wTick w tx.peer).2).1 tx.entries (commitT0 w tx) with hw2
  have hw2_faults : w2.faults = w.faults := by
    rw [hw2, YF1, SF1]; rfl
  have hw2_export : w2.export_id = w.export_id := by
    rw [hw2, YF2, SF2]; rfl
  have hw2_queued : ∀ e ∈ tx.entries,
      bus1_queue_node_is_queued (w2.peers e.2.raw_peer).queue e.1.node
        = true := by
    intro e he
    rw [← nodeStamp_isSome_iff_queued, hw2, YF6]
    exact stagingPass_isSome tx.entries _ _ e he
  have hch_iff : ∀ e ∈ tx.entries,
      (commitHappens w2 e.1 e.2 (commitT0 w tx) ↔
        (e.1.slice.isSome = true ∧
          w.export_id e.2.raw_peer (commitT0 w tx) ≠ BUS1_HANDLE_INVALID)) := by
    intro e he
    rw [commitHappens, hw2_export, hw2_queued e he]
    simp
  refine ⟨rfl, ?_, ?_, ?_, ?_, ?_, ?_, ?_⟩
  · intro e he
    obtain ⟨B1, B2⟩ := CF6 e he
    exact ⟨fun h => B1 ((hch_iff e he).mpr h),
           fun h => B2 (fun hc => h ((hch_iff e he).mp hc))⟩
  · intro e he
    rw [CF1]
    exact syncPass_clock_ge tx.entries _ _ e he
  · rw [CF7]
    have : tx.entries.any
        (fun e => entryAttempted w2 e && entryFault w2 e) =
        tx.entries.any (fun e => entryFault w e) := by
      refine any_congr_on_mem _ _ _ (fun e he => ?_)
      have hatt : entryAttempted w2 e = true := by
        rw [entryAttempted, hw2_queued e he, Bool.or_true]
      rw [hatt, Bool.true_and, entryFault_congr e hw2_faults]
    rw [this]
  · intro q
    rw [CF8, hw2, YF5, SF5, wTick_peerDropped]
  · rw [CF2, hw2_faults]
  · intro q hq
    rw [CF9 q hq, hw2, YF3, SF3]
    rfl
  · obtain ⟨δc, hδc1, hδc2, hδc3⟩ := CF10
    obtain ⟨hsp1, hsp2, hsp3⟩ :=
      stagingPass_spec tx.entries (wTick w tx.peer).1 (wTick w tx.peer).2
    obtain ⟨δs, hδs1, hδs2, hδs3⟩ := hsp3
    obtain ⟨hsy1, hsy2⟩ :=
      syncPass_spec tx.entries
        (stagingPass (wTick w tx.peer).1 tx.entries (wTick w tx.peer).2).1
        (commitT0 w tx)
    refine ⟨δs, δc, ?_, hδs2, hδs3, hδc2, hδc3, hsp1⟩
    rw [hδc1, hw2, hsy2, hδs1, wTick_events]

lemma commit_nil (w : World) (tx : bus1_transaction) (h : tx.entries = []) :
    bus1_transaction_commit w tx = (w, tx, 0) := by
  rcases tx with ⟨p, pa, lv, fi, ents⟩
  cases ents with
  | nil => rfl
  | cons a l => exact absurd h (by simp)

lemma commitFold_ret_mem (tx : bus1_transaction) (t0 : Nat)
    (es : List (bus1_message × bus1_handle_dest)) :
    ∀ (w : World) (res0 : Int),
    (commitFold tx t0 w res0 es).2 = res0 ∨
    (commitFold tx t0 w res0 es).2 = -EFAULT := by
  induction es with
  | nil => intro w res0; exact Or.inl rfl
  | cons e es ih =>
    intro w res0
    rw [commitFold_cons]
    rcases ih (bus1_transaction_consume w tx e.1 e.2 t0).1
        (if (bus1_transaction_consume w tx e.1 e.2 t0).2 = -EFAULT
         then (bus1_transaction_consume w tx e.1 e.2 t0).2 else res0) with h | h
    · rw [h]
      split_ifs with hc
      · exact Or.inr hc
      · exact Or.inl rfl
    · exact Or.inr h

/-- The result of `bus1_transaction_commit` is always `0` or `-EFAULT`:
`-EHOSTUNREACH` is never surfaced. -/
lemma commit_ret_mem (w : World) (tx : bus1_transaction) :
    (bus1_transaction_commit w tx).2.2 = 0 ∨
    (bus1_transaction_commit w tx).2.2 = -EFAULT := by
  cases hc : tx.entries with
  | nil => rw [commit_nil w tx hc]; exact Or.inl rfl
  | cons a l =>
    rw [commit_unfold w tx (by rw [hc]; simp), commitPass_eq_fold]
    exact commitFold_ret_mem _ _ _ _ _

lemma commitFold_events (tx : bus1_transaction) (t0 : Nat) (ht : t0 ≠ 0)
    (es : List (bus1_message × bus1_handle_dest)) :
    ∀ (w : World) (res0 : Int),
    ∃ δ, (commitFold tx t0 w res0 es).1.events = w.events ++ δ ∧
      (∀ ev ∈ δ, isClockAdv ev = false) ∧
      (∀ p n t', Event.stage p n t' ∈ δ → t' = t0) := by
  induction es with
  | nil =>
    intro w res0
    exact ⟨[], by simp [commitFold], by simp, by simp⟩
  | cons e es ih =>
    intro w res0
    rw [commitFold_cons]
    obtain ⟨δ2, h1, h2, h3⟩ := ih (bus1_transaction_consume w tx e.1 e.2 t0).1
        (if (bus1_transaction_consume w tx e.1 e.2 t0).2 = -EFAULT
         then (bus1_transaction_consume w tx e.1 e.2 t0).2 else res0)
    obtain ⟨δ1, g1, g2, g3⟩ := consume_events w tx e.1 e.2 t0 ht
    refine ⟨δ1 ++ δ2, ?_, ?_, ?_⟩
    · rw [h1, g1, List.append_assoc]
    · intro ev hev
      rcases List.mem_append.mp hev with h | h
      · exact g2 ev h
      · exact h2 ev h
    · intro p n t' hmem
      rcases List.mem_append.mp hmem with h | h
      · exact g3 p n t' h
      · exact h3 p n t' h

lemma spec_staging_contains_stage (es : List (bus1_message × bus1_handle_dest)) :
    ∀ (clocks : PeerId → Nat) (t0 : Nat)
      (e : bus1_message × bus1_handle_dest), e ∈ es →
    ∃ t', Event.stage e.2.raw_peer e.1.node t' ∈
      (spec_staging clocks t0 es).2.2 := by
  induction es with
  | nil => intro clocks t0 e he; exact absurd he (List.not_mem_nil e)
  | cons f es ih =>
    intro clocks t0 e he
    rcases List.mem_cons.mp he with rfl | he
    · refine ⟨max (clocks e.2.raw_peer) t0 + 1 - 1, ?_⟩
      simp only [spec_staging, List.mem_cons]
      right; right; left; trivial
    · obtain ⟨t', ht'⟩ := ih _ _ e he
      refine ⟨t', ?_⟩
      simp only [spec_staging, List.mem_cons]
      exact Or.inr (Or.inr (Or.inr ht'))

/-- `bus1_transaction_instantiate` never writes to user memory and emits
no write-back event. -/
lemma instantiate_no_put (w : World) (tx : bus1_transaction) (idp : Ptr) :
    (bus1_transaction_instantiate w tx idp).1.mem = w.mem ∧
    (∃ δ, (bus1_transaction_instantiate w tx idp).1.events = w.events ++ δ ∧
      ∀ ev ∈ δ, isPut ev = false) := by
  rw [bus1_transaction_instantiate]
  cases hres : w.resolve (w.mem idp) with
  | error e => exact ⟨rfl, ⟨[], by simp, by simp⟩⟩
  | ok pr =>
    dsimp only
    cases halloc : w.slice_alloc pr.1 with
    | none =>
      dsimp only
      by_cases hcont : tx.param.flag_continue = true
      · rw [if_pos hcont]
        exact ⟨rfl, ⟨[.dealloc w.next_node], by simp, by
          intro ev hev
          rcases List.mem_cons.mp hev with rfl | hev
          · rfl
          · exact absurd hev (List.not_mem_nil ev)⟩⟩
      · rw [if_neg hcont]
        refine ⟨rfl, ⟨[.dealloc w.next_node, .freeMsg w.next_node], by simp, ?_⟩⟩
        intro ev hev
        rcases List.mem_cons.mp hev with rfl | hev
        · rfl
        rcases List.mem_cons.mp hev with rfl | hev
        · rfl
        · exact absurd hev (List.not_mem_nil ev)
    | some s =>
      dsimp only
      by_cases hcopy : w.copy_ok = true
      · rw [if_pos hcopy]
        exact ⟨rfl, ⟨[], by simp, by simp⟩⟩
      · rw [if_neg hcopy]
        refine ⟨rfl, ⟨[.dealloc w.next_node, .freeMsg w.next_node], by simp, ?_⟩⟩
        intro ev hev
        rcases List.mem_cons.mp hev with rfl | hev
        · rfl
        rcases List.mem_cons.mp hev with rfl | hev
        · rfl
        · exact absurd hev (List.not_mem_nil ev)

end CommitLemmas

section DestroyLemmas

/-- Following the spec's words (§4.6, teardown): "for each entry: under
the destination peer lock, call `remove` on the queue (wakes the peer if
it altered visibility); deallocate the slice; drop the handle-inflight
descriptor; release the destination peer pin; free the message."  The
expected event trace, threaded over the evolving queue states. -/
def spec_teardown_blocks (peers : PeerId → bus1_peer_info) :
    List (bus1_message × bus1_handle_dest) → List Event
  | [] => []
  | e :: es =>
    let r := bus1_queue_remove (peers e.2.raw_peer).queue e.1.node
    (Event.remove e.2.raw_peer e.1.node ::
      ((if r.2 then [Event.wake e.2.raw_peer] else []) ++
       [Event.dealloc e.1.node, Event.freeMsg e.1.node,
        Event.destDestroy e.2.raw_peer])) ++
    spec_teardown_blocks
      (fun q => if q = e.2.raw_peer
        then { peers e.2.raw_peer with queue := r.1 } else peers q) es

/-- Following the spec's words (§4.6): "Then release all remaining sender
file references": one `fput` per non-null slot, in order. -/
def fput_trace : List (Option Nat) → List Event
  | [] => []
  | some f :: fs => Event.fput f :: fput_trace fs
  | none :: fs => fput_trace fs

lemma destroyEntryStep_peers (w : World)
    (md : bus1_message × bus1_handle_dest) :
    (destroyEntryStep w md).peers = fun q =>
      if q = md.2.raw_peer then
        { w.peers md.2.raw_peer with
          queue := (bus1_queue_remove (w.peers md.2.raw_peer).queue
            md.1.node).1 }
      else w.peers q := by
  rw [destroyEntryStep]
  split <;> rfl

lemma destroyEntryStep_nodeStamp (w : World)
    (md : bus1_message × bus1_handle_dest) (q : PeerId) (n : Nat) :
    nodeStamp (destroyEntryStep w md) q n =
      if q = md.2.raw_peer ∧ n = md.1.node then none else nodeStamp w q n := by
  rw [destroyEntryStep]
  split <;> rw [← wRemove_nodeStamp] <;> rfl

lemma destroyEntryStep_freed (w : World)
    (md : bus1_message × bus1_handle_dest) :
    (destroyEntryStep w md).freed = w.freed ++ [md.1.node] := by
  rw [destroyEntryStep]
  split <;> simp

lemma destroyEntryStep_mem (w : World) (md : bus1_message × bus1_handle_dest) :
    (destroyEntryStep w md).mem = w.mem := by
  rw [destroyEntryStep]
  split <;> rfl

lemma destroyEntryStep_events (w : World)
    (md : bus1_message × bus1_handle_dest) :
    (destroyEntryStep w md).events = w.events ++
      (Event.remove md.2.raw_peer md.1.node ::
        ((if (bus1_queue_remove (w.peers md.2.raw_peer).queue md.1.node).2
          then [Event.wake md.2.raw_peer] else []) ++
         [Event.dealloc md.1.node, Event.freeMsg md.1.node,
          Event.destDestroy md.2.raw_peer])) := by
  have hcond : (bus1_queue_remove (w.peers md.2.raw_peer).queue md.1.node).2
      = (wRemove w md.2.raw_peer md.1.node).2 := rfl
  rw [hcond]
  simp only [destroyEntryStep]
  by_cases hr : (wRemove w md.2.raw_peer md.1.node).2 = true
  · rw [if_pos hr, if_pos hr]
    simp [List.append_assoc]
  · rw [if_neg hr, if_neg hr]
    simp [List.append_assoc]

lemma destroyEntriesFold_events
    (es : List (bus1_message × bus1_handle_dest)) :
    ∀ (w : World),
    (es.foldl destroyEntryStep w).events =
      w.events ++ spec_teardown_blocks w.peers es := by
  induction es with
  | nil => intro w; simp [spec_teardown_blocks]
  | cons e es ih =>
    intro w
    rw [List.foldl_cons, ih (destroyEntryStep w e), destroyEntryStep_events,
        spec_teardown_blocks, destroyEntryStep_peers w e, List.append_assoc]

lemma destroyEntriesFold_freed (es : List (bus1_message × bus1_handle_dest)) :
    ∀ (w : World),
    (es.foldl destroyEntryStep w).freed =
      w.freed ++ es.map (fun e => e.1.node) := by
  induction es with
  | nil => intro w; simp
  | cons e es ih =>
    intro w
    rw [List.foldl_cons, ih (destroyEntryStep w e), destroyEntryStep_freed,
        List.map_cons, List.append_assoc]
    rfl

lemma destroyEntriesFold_nodeStamp
    (es : List (bus1_message × bus1_handle_dest)) :
    ∀ (w : World) (q : PeerId) (n : Nat),
    nodeStamp (es.foldl destroyEntryStep w) q n = none ∨
    (nodeStamp (es.foldl destroyEntryStep w) q n = nodeStamp w q n ∧
      ∀ e ∈ es, ¬(q = e.2.raw_peer ∧ n = e.1.node)) := by
  induction es with
  | nil => intro w q n; exact Or.inr ⟨rfl, by simp⟩
  | cons e es ih =>
    intro w q n
    rw [List.foldl_cons]
    rcases ih (destroyEntryStep w e) q n with h | ⟨h, hall⟩
    · exact Or.inl h
    · rw [destroyEntryStep_nodeStamp] at h
      by_cases hqe : q = e.2.raw_peer ∧ n = e.1.node
      · rw [if_pos hqe] at h
        exact Or.inl h
      · rw [if_neg hqe] at h
        refine Or.inr ⟨h, ?_⟩
        intro f hf
        rcases List.mem_cons.mp hf with rfl | hf
        · exact hqe
        · exact hall f hf

lemma destroyEntriesFold_removed
    (es : List (bus1_message × bus1_handle_dest)) :
    ∀ (w : World) (e : bus1_message × bus1_handle_dest), e ∈ es →
    nodeStamp (es.foldl destroyEntryStep w) e.2.raw_peer e.1.node = none := by
  induction es with
  | nil => intro w e he; exact absurd he (List.not_mem_nil e)
  | cons f es ih =>
    intro w e he
    rcases List.mem_cons.mp he with rfl | he
    · rw [List.foldl_cons]
      rcases destroyEntriesFold_nodeStamp es (destroyEntryStep w e)
          e.2.raw_peer e.1.node with h | ⟨h, _⟩
      · exact h
      · rw [h, destroyEntryStep_nodeStamp, if_pos ⟨rfl, rfl⟩]
    · rw [List.foldl_cons]
      exact ih _ e he

lemma destroyEntriesFold_mem (es : List (bus1_message × bus1_handle_dest)) :
    ∀ (w : World), (es.foldl destroyEntryStep w).mem = w.mem := by
  induction es with
  | nil => intro w; rfl
  | cons e es ih =>
    intro w
    rw [List.foldl_cons, ih, destroyEntryStep_mem]

lemma fputFold_events (fs : List (Option Nat)) :
    ∀ (w : World), (fs.foldl fputStep w).events = w.events ++ fput_trace fs := by
  induction fs with
  | nil => intro w; simp [fput_trace]
  | cons f fs ih =>
    intro w
    cases f with
    | none =>
      rw [List.foldl_cons, ih]
      rfl
    | some g =>
      rw [List.foldl_cons, ih, fput_trace]
      show (w.log (.fput g)).events ++ fput_trace fs = _
      rw [log_events, List.append_assoc]
      rfl

lemma fputFold_state (fs : List (Option Nat)) :
    ∀ (w : World), (fs.foldl fputStep w).peers = w.peers ∧
      (fs.foldl fputStep w).freed = w.freed ∧
      (fs.foldl fputStep w).mem = w.mem := by
  induction fs with
  | nil => intro w; exact ⟨rfl, rfl, rfl⟩
  | cons f fs ih =>
    intro w
    cases f with
    | none => exact ih w
    | some g => exact ih (w.log (.fput g))

lemma commit_entries_empty (w : World) (tx : bus1_transaction) :
    (bus1_transaction_commit w tx).2.1.entries = [] := by
  cases hc : tx.entries with
  | nil => rw [commit_nil w tx hc, hc]
  | cons a l => rw [commit_unfold w tx (by rw [hc]; simp)]

end DestroyLemmas

section Examples

/-- A concrete environment: handle id 42 resolves to destination peer 1
and id 43 to peer 2, both with id write-back wanted; every pool has room;
id export yields 7; no user-memory faults.  User address 10 holds 42 and
address 11 holds 43. -/
def wA : World :=
  { peers := fun _ => { queue := { clock := 0, nodes := [] }, n_dropped := 0 }
    mem := fun p => if p = 10 then 42 else if p = 11 then 43 else 0
    faults := fun _ => false
    resolve := fun h => if h = 42 then .ok (1, true)
      else if h = 43 then .ok (2, true) else .error (-72)
    slice_alloc := fun _ => some 5
    copy_ok := true
    export_id := fun _ _ => 7
    next_node := 0
    msg_dest := fun _ => none
    freed := []
    events := [] }

/-- `wA` with a user-memory fault at address 11. -/
def wB : World := { wA with faults := fun p => p == 11 }

/-- `wA` with every destination pool saturated. -/
def wC : World := { wA with slice_alloc := fun _ => none }

def paramA : bus1_cmd_send :=
  { n_vecs := 0, n_fds := 0, n_handles := 0,
    flag_continue := false, flag_silent := false }

def paramCont : bus1_cmd_send := { paramA with flag_continue := true }

/-- An empty transaction from sender peer 0. -/
def txA : bus1_transaction := bus1_transaction_init 0 paramA []

def txCont : bus1_transaction := bus1_transaction_init 0 paramCont []

/-- A transaction with two instantiated entries: node 0 to peer 1
(write-back at address 10) and node 1 to peer 2 (write-back at 11). -/
def txA2 : bus1_transaction :=
  { txA with entries :=
      [({ node := 0, slice := some 5, destination := 0 },
        { raw_peer := 1, idp := some 10 }),
       ({ node := 1, slice := some 5, destination := 0 },
        { raw_peer := 2, idp := some 11 })] }

/-- A transaction with a single sliceless (dropped) entry to peer 1 with
write-back at address 11. -/
def txDrop : bus1_transaction :=
  { txA with entries :=
      [({ node := 0, slice := none, destination := 0 },
        { raw_peer := 1, idp := some 11 })] }

def paramC4 : bus1_cmd_send :=
  { n_vecs := 0, n_fds := 1, n_handles := 0,
    flag_continue := false, flag_silent := false }

/-- The first entry of `txA2`. -/
def entryA1 : bus1_message × bus1_handle_dest :=
  ({ node := 0, slice := some 5, destination := 0 },
   { raw_peer := 1, idp := some 10 })

/-- The sliceless message and its destination binding of `txDrop`. -/
def msgDrop : bus1_message := { node := 0, slice := none, destination := 0 }

def destDrop : bus1_handle_dest := { raw_peer := 1, idp := some 11 }

end Examples

section Claims

/-- C4: the claim says that after `bus1_transaction_init` all `n_fds`
file slots are null, so that teardown releases exactly the successfully
imported files.  The code memsets `n_vecs * sizeof(struct file *)` bytes
(transaction.c:85) instead of `n_fds * ...`: with `n_vecs = 0`,
`n_fds = 1` and a stale non-null value in the uninitialized slot, the
slot survives init, and when the file import fails,
`bus1_transaction_new_from_user` tears down and `fput`s a file that was
never imported. -/
theorem C4_init_files_memset_bug :
    (bus1_transaction_init 0 paramC4 [some 7]).files = [some 7] ∧
    (bus1_transaction_new_from_user wA 0 paramC4 [some 7] (Except.ok 0)
        (Except.ok ()) (fun _ => Except.error (-9))).2
      = Except.error (-9) ∧
    (bus1_transaction_new_from_user wA 0 paramC4 [some 7] (Except.ok 0)
        (Except.ok ()) (fun _ => Except.error (-9))).1.events
      = [Event.fput 7, Event.transferDestroy] :=
  ⟨rfl, rfl, rfl⟩

/-- C6: the claim says `bus1_transaction_commit_for_id` is equivalent to
`bus1_transaction_instantiate_for_id` followed by
`bus1_transaction_commit`.  On the fast path the freshly created message
was never staged, so the `bus1_queue_node_is_queued` test in
`bus1_transaction_consume` (transaction.c:421) is false: the unicast
message is treated as a raced node destruction, nothing is delivered and
`-EHOSTUNREACH` is returned, while the slow path delivers the entry at
timestamp 2, writes id 7 back and returns 0. -/
theorem C6_fast_path_not_equivalent :
    (bus1_transaction_commit_for_id wA txA 10).2 = -EHOSTUNREACH ∧
    nodeStamp (bus1_transaction_commit_for_id wA txA 10).1 1 0 = none ∧
    (0 : Nat) ∈ (bus1_transaction_commit_for_id wA txA 10).1.freed ∧
    (bus1_transaction_commit
        (bus1_transaction_instantiate_for_id wA txA 10).1
        (bus1_transaction_instantiate_for_id wA txA 10).2.1).2.2 = 0 ∧
    nodeStamp (bus1_transaction_commit
        (bus1_transaction_instantiate_for_id wA txA 10).1
        (bus1_transaction_instantiate_for_id wA txA 10).2.1).1 1 0
      = some 2 ∧
    (bus1_transaction_commit
        (bus1_transaction_instantiate_for_id wA txA 10).1
        (bus1_transaction_instantiate_for_id wA txA 10).2.1).1.mem 10
      = 7 := by
  refine ⟨rfl, rfl, by decide, rfl, rfl, rfl⟩

/-- C1: for a non-empty transaction (with the pairwise-distinct queue
nodes that instantiation guarantees), commit uses one timestamp `t0`, the
value reached after the staging pass (`commitT0`): every entry ends
either linked on its destination queue at exactly `t0`, or (dropped /
raced) unlinked and freed — never at any other timestamp — and after
commit every participating destination clock is at least `t0`. -/
theorem C1_atomic_commit_timestamp (w : World) (tx : bus1_transaction)
    (hne : tx.entries ≠ [])
    (hnd : (tx.entries.map (fun e => e.1.node)).Nodup) :
    ∃ t0, t0 = commitT0 w tx ∧ t0 ≠ 0 ∧
      (∀ e ∈ tx.entries,
        nodeStamp (bus1_transaction_commit w tx).1 e.2.raw_peer e.1.node
            = some t0 ∨
        (nodeStamp (bus1_transaction_commit w tx).1 e.2.raw_peer e.1.node
            = none ∧
         e.1.node ∈ (bus1_transaction_commit w tx).1.freed)) ∧
      (∀ e ∈ tx.entries,
        t0 ≤ peerClock (bus1_transaction_commit w tx).1 e.2.raw_peer) := by
  obtain ⟨F1, F2, F3, F4, F5, F6, F7, F8⟩ := commit_facts w tx hne hnd
  refine ⟨commitT0 w tx, rfl, commitT0_ne_zero w tx, ?_, F3⟩
  intro e he
  obtain ⟨B1, B2⟩ := F2 e he
  by_cases hch : e.1.slice.isSome = true ∧
      w.export_id e.2.raw_peer (commitT0 w tx) ≠ BUS1_HANDLE_INVALID
  · exact Or.inl (B1 hch)
  · exact Or.inr (B2 hch)

theorem C1_witness :
    txA2.entries ≠ [] ∧ (txA2.entries.map (fun e => e.1.node)).Nodup ∧
    (∃ t0, t0 = commitT0 wA txA2 ∧ t0 ≠ 0 ∧
      (∀ e ∈ txA2.entries,
        nodeStamp (bus1_transaction_commit wA txA2).1 e.2.raw_peer e.1.node
            = some t0 ∨
        (nodeStamp (bus1_transaction_commit wA txA2).1 e.2.raw_peer e.1.node
            = none ∧
         e.1.node ∈ (bus1_transaction_commit wA txA2).1.freed)) ∧
      (∀ e ∈ txA2.entries,
        t0 ≤ peerClock (bus1_transaction_commit wA txA2).1 e.2.raw_peer)) :=
  ⟨by decide, by decide,
   C1_atomic_commit_timestamp wA txA2 (by decide) (by decide)⟩

/-- C2: commit returns `-EFAULT` exactly when at least one entry's id
write-back pointer faults, and `0` otherwise; every entry is still
processed to completion (linked at the commit timestamp, or unlinked and
freed), and the return value depends only on the write-back faults — not
on drops. -/
theorem C2_fault_latching (w : World) (tx : bus1_transaction)
    (hnd : (tx.entries.map (fun e => e.1.node)).Nodup) :
    ((bus1_transaction_commit w tx).2.2 =
      if tx.entries.any (fun e => entryFault w e) then -EFAULT else 0) ∧
    (∀ e ∈ tx.entries,
      nodeStamp (bus1_transaction_commit w tx).1 e.2.raw_peer e.1.node
          = some (commitT0 w tx) ∨
      (nodeStamp (bus1_transaction_commit w tx).1 e.2.raw_peer e.1.node
          = none ∧
       e.1.node ∈ (bus1_transaction_commit w tx).1.freed)) := by
  cases hc : tx.entries with
  | nil =>
    constructor
    · rw [commit_nil w tx hc]
      simp
    · intro e he
      exact absurd he (List.not_mem_nil e)
  | cons a l =>
    rw [← hc]
    obtain ⟨F1, F2, F3, F4, F5, F6, F7, F8⟩ :=
      commit_facts w tx (by rw [hc]; simp) hnd
    refine ⟨F4, ?_⟩
    intro e he
    obtain ⟨B1, B2⟩ := F2 e he
    by_cases hch : e.1.slice.isSome = true ∧
        w.export_id e.2.raw_peer (commitT0 w tx) ≠ BUS1_HANDLE_INVALID
    · exact Or.inl (B1 hch)
    · exact Or.inr (B2 hch)

theorem C2_witness :
    (txA2.entries.map (fun e => e.1.node)).Nodup ∧
    (((bus1_transaction_commit wB txA2).2.2 =
      if txA2.entries.any (fun e => entryFault wB e) then -EFAULT else 0) ∧
    (∀ e ∈ txA2.entries,
      nodeStamp (bus1_transaction_commit wB txA2).1 e.2.raw_peer e.1.node
          = some (commitT0 wB txA2) ∨
      (nodeStamp (bus1_transaction_commit wB txA2).1 e.2.raw_peer e.1.node
          = none ∧
       e.1.node ∈ (bus1_transaction_commit wB txA2).1.freed))) :=
  ⟨by decide, C2_fault_latching wB txA2 (by decide)⟩

/-- C3: `bus1_transaction_commit` follows the three-pass protocol of the
spec: the trace is the sender tick (yielding `clock + 1`), then exactly
the spec's staging-pass clock operations (per entry, in list order:
`t0 = sync(dest, t0); t0 = tick(dest); stage(node, t0 - 1)`, as
`spec_staging` transcribes), then exactly the spec's side-channel sync
pass to the final `t0 = commitT0`, and only then the commit pass, which
performs no further clock advance and stages only at `t0`. -/
theorem C3_three_pass_protocol (w : World) (tx : bus1_transaction)
    (hne : tx.entries ≠ []) :
    ∃ δs δc,
      (bus1_transaction_commit w tx).1.events = w.events
        ++ [Event.tick tx.peer (peerClock w tx.peer + 1)]
        ++ δs
        ++ (spec_syncpass (peerClock (stagingPass (wTick w tx.peer).1
              tx.entries (wTick w tx.peer).2).1) (commitT0 w tx)
              tx.entries).2
        ++ δc ∧
      clockOps δs = (spec_staging (peerClock (wTick w tx.peer).1)
        (wTick w tx.peer).2 tx.entries).2.2 ∧
      commitT0 w tx = (spec_staging (peerClock (wTick w tx.peer).1)
        (wTick w tx.peer).2 tx.entries).2.1 ∧
      (∀ ev ∈ δc, isClockAdv ev = false) ∧
      (∀ p n t', Event.stage p n t' ∈ δc → t' = commitT0 w tx) := by
  rw [commit_unfold w tx hne, commitPass_eq_fold]
  obtain ⟨δc, hδc1, hδc2, hδc3⟩ :=
    commitFold_events { tx with entries := [] } (commitT0 w tx)
      (commitT0_ne_zero w tx) tx.entries
      (syncPass (stagingPass (wTick w tx.peer).1 tx.entries
          (wTick w tx.peer).2).1 tx.entries (commitT0 w tx)) 0
  obtain ⟨hsp1, hsp2, hsp3⟩ :=
    stagingPass_spec tx.entries (wTick w tx.peer).1 (wTick w tx.peer).2
  obtain ⟨δs, hδs1, hδs2, hδs3⟩ := hsp3
  obtain ⟨hsy1, hsy2⟩ :=
    syncPass_spec tx.entries
      (stagingPass (wTick w tx.peer).1 tx.entries (wTick w tx.peer).2).1
      (commitT0 w tx)
  refine ⟨δs, δc, ?_, hδs2, hsp1, hδc2, hδc3⟩
  rw [hδc1, hsy2, hδs1, wTick_events]

theorem C3_witness :
    txA2.entries ≠ [] ∧
    (∃ δs δc,
      (bus1_transaction_commit wA txA2).1.events = wA.events
        ++ [Event.tick txA2.peer (peerClock wA txA2.peer + 1)]
        ++ δs
        ++ (spec_syncpass (peerClock (stagingPass (wTick wA txA2.peer).1
              txA2.entries (wTick wA txA2.peer).2).1) (commitT0 wA txA2)
              txA2.entries).2
        ++ δc ∧
      clockOps δs = (spec_staging (peerClock (wTick wA txA2.peer).1)
        (wTick wA txA2.peer).2 txA2.entries).2.2 ∧
      commitT0 wA txA2 = (spec_staging (peerClock (wTick wA txA2.peer).1)
        (wTick wA txA2.peer).2 txA2.entries).2.1 ∧
      (∀ ev ∈ δc, isClockAdv ev = false) ∧
      (∀ p n t', Event.stage p n t' ∈ δc → t' = commitT0 wA txA2)) :=
  ⟨by decide, C3_three_pass_protocol wA txA2 (by decide)⟩

/-- C8: no variant of instantiation ever writes to user memory — the
destination-local id reaches the sender only from the commit pass.  In
`bus1_transaction_commit`, every write-back event lies in the commit-pass
segment `δc`, which comes after the segment `δpre` holding the sender
tick, the staging of every entry's node and the side-channel syncs; δc
itself stages only at the final timestamp. -/
theorem C8_writeback_only_in_commit_pass :
    (∀ (w : World) (tx : bus1_transaction) (idp : Ptr),
      (bus1_transaction_instantiate w tx idp).1.mem = w.mem ∧
      (bus1_transaction_instantiate_for_id w tx idp).1.mem = w.mem ∧
      ∃ δ, (bus1_transaction_instantiate_for_id w tx idp).1.events
          = w.events ++ δ ∧ ∀ ev ∈ δ, isPut ev = false) ∧
    (∀ (w : World) (tx : bus1_transaction),
      ∃ δpre δc,
        (bus1_transaction_commit w tx).1.events = w.events ++ δpre ++ δc ∧
        (∀ ev ∈ δpre, isPut ev = false) ∧
        (∀ e ∈ tx.entries, ∃ t',
          Event.stage e.2.raw_peer e.1.node t' ∈ δpre) ∧
        (∀ p n t', Event.stage p n t' ∈ δc → t' = commitT0 w tx)) := by
  constructor
  · intro w tx idp
    obtain ⟨hmem, δ0, hδ0, hput0⟩ := instantiate_no_put w tx idp
    refine ⟨hmem, ?_⟩
    rw [bus1_transaction_instantiate_for_id]
    cases hres : bus1_transaction_instantiate w tx idp with
    | mk w' r =>
      have h1 : (bus1_transaction_instantiate w tx idp).1 = w' := by
        rw [hres]
      rw [h1] at hmem hδ0
      cases r with
      | error ed =>
        rcases ed with ⟨ecode, dopt⟩
        cases dopt with
        | none => exact ⟨hmem, δ0, hδ0, hput0⟩
        | some dd =>
          refine ⟨by rw [log_mem]; exact hmem,
            δ0 ++ [.destDestroy dd.raw_peer], ?_, ?_⟩
          · rw [log_events, hδ0, List.append_assoc]
          · intro ev hev
            rcases List.mem_append.mp hev with h | h
            · exact hput0 ev h
            · rcases List.mem_cons.mp h with rfl | h
              · rfl
              · exact absurd h (List.not_mem_nil ev)
      | ok md =>
        rcases md with ⟨msg, dest⟩
        exact ⟨hmem, δ0, hδ0, hput0⟩
  · intro w tx
    cases hc : tx.entries with
    | nil =>
      rw [commit_nil w tx hc]
      exact ⟨[], [], by simp, by simp, fun e he => absurd he
        (List.not_mem_nil e), by simp⟩
    | cons a l =>
      rw [← hc, commit_unfold w tx (by rw [hc]; simp), commitPass_eq_fold]
      obtain ⟨δc, hδc1, hδc2, hδc3⟩ :=
        commitFold_events { tx with entries := [] } (commitT0 w tx)
          (commitT0_ne_zero w tx) tx.entries
          (syncPass (stagingPass (wTick w tx.peer).1 tx.entries
              (wTick w tx.peer).2).1 tx.entries (commitT0 w tx)) 0
      obtain ⟨hsp1, hsp2, hsp3⟩ :=
        stagingPass_spec tx.entries (wTick w tx.peer).1 (wTick w tx.peer).2
      obtain ⟨δs, hδs1, hδs2, hδs3⟩ := hsp3
      obtain ⟨hsy1, hsy2⟩ :=
        syncPass_spec tx.entries
          (stagingPass (wTick w tx.peer).1 tx.entries (wTick w tx.peer).2).1
          (commitT0 w tx)
      refine ⟨[Event.tick tx.peer (peerClock w tx.peer + 1)] ++ δs ++
        (spec_syncpass (peerClock (stagingPass (wTick w tx.peer).1
          tx.entries (wTick w tx.peer).2).1) (commitT0 w tx) tx.entries).2,
        δc, ?_, ?_, ?_, hδc3⟩
      · rw [hδc1, hsy2, hδs1, wTick_events]
        simp only [List.append_assoc]
      · intro ev hev
        rcases List.mem_append.mp hev with hev | hev
        · rcases List.mem_append.mp hev with hev | hev
          · rcases List.mem_cons.mp hev with rfl | hev
            · rfl
            · exact absurd hev (List.not_mem_nil ev)
          · exact hδs3 ev hev
        · obtain ⟨p, a', v, rfl⟩ := spec_syncpass_sync tx.entries _ _ ev hev
          rfl
      · intro e he
        obtain ⟨t', ht'⟩ := spec_staging_contains_stage tx.entries
          (peerClock (wTick w tx.peer).1) (wTick w tx.peer).2 e he
        rw [← hδs2] at ht'
        refine ⟨t', ?_⟩
        have : Event.stage e.2.raw_peer e.1.node t' ∈ δs :=
          List.mem_of_mem_filter ht'
        exact List.mem_append.mpr (Or.inl (List.mem_append.mpr (Or.inr this)))

/-- C7: if, when the commit pass runs, an entry's node is no longer
queued (the destination queue was reset between staging and commit), that
entry is delivered nowhere — its node stays unlinked, its message is
freed — while the commit pass still returns `0` (absent write-back
faults) and every other entry whose commit conditions hold is committed
at `t0` unaffected; moreover `bus1_transaction_commit` never returns
`-EHOSTUNREACH` to the caller. -/
theorem C7_reset_silently_dropped (w : World) (tx : bus1_transaction)
    (es : List (bus1_message × bus1_handle_dest))
    (e : bus1_message × bus1_handle_dest) (t0 : Nat)
    (ht0 : t0 ≠ 0)
    (hnd : (es.map (fun f => f.1.node)).Nodup)
    (he : e ∈ es)
    (hs : e.1.slice.isSome = true)
    (hq : bus1_queue_node_is_queued (w.peers e.2.raw_peer).queue e.1.node
      = false)
    (hnf : ∀ f ∈ es, entryFault w f = false) :
    ((commitPass w tx es t0).2 = 0) ∧
    nodeStamp (commitPass w tx es t0).1 e.2.raw_peer e.1.node = none ∧
    e.1.node ∈ (commitPass w tx es t0).1.freed ∧
    (∀ f ∈ es, f.1.slice.isSome = true →
      bus1_queue_node_is_queued (w.peers f.2.raw_peer).queue f.1.node
        = true →
      w.export_id f.2.raw_peer t0 ≠ BUS1_HANDLE_INVALID →
      nodeStamp (commitPass w tx es t0).1 f.2.raw_peer f.1.node = some t0) ∧
    (∀ (w' : World) (tx' : bus1_transaction),
      (bus1_transaction_commit w' tx').2.2 ≠ -EHOSTUNREACH) := by
  rw [commitPass_eq_fold]
  obtain ⟨CF1, CF2, CF3, CF4, CF5, CF6, CF7, CF8, CF9, CF10⟩ :=
    commitFold_facts tx t0 ht0 es w 0 hnd
  have hnch : ¬commitHappens w e.1 e.2 t0 := by
    rintro ⟨_, h2, _⟩
    rw [hq] at h2
    exact absurd h2 (by simp)
  obtain ⟨B1, B2⟩ := CF6 e he
  obtain ⟨hn1, hn2⟩ := B2 hnch
  have hany : es.any (fun f => entryAttempted w f && entryFault w f)
      = false := by
    cases hx : es.any (fun f => entryAttempted w f && entryFault w f) with
    | false => rfl
    | true =>
      obtain ⟨f, hf, hpf⟩ := List.any_eq_true.mp hx
      rw [hnf f hf, Bool.and_false] at hpf
      exact absurd hpf (by simp)
  refine ⟨?_, hn1, hn2, ?_, ?_⟩
  · rw [CF7, hany]
    simp
  · intro f hf hfs hfq hfe
    exact (CF6 f hf).1 ⟨hfs, hfq, hfe⟩
  · intro w' tx'
    rcases commit_ret_mem w' tx' with h | h <;> rw [h] <;> decide

theorem C7_witness :
    (5 : Nat) ≠ 0 ∧
    (txA2.entries.map (fun f => f.1.node)).Nodup ∧
    entryA1 ∈ txA2.entries ∧
    entryA1.1.slice.isSome = true ∧
    bus1_queue_node_is_queued (wA.peers entryA1.2.raw_peer).queue
      entryA1.1.node = false ∧
    (∀ f ∈ txA2.entries, entryFault wA f = false) ∧
    (((commitPass wA txA txA2.entries 5).2 = 0) ∧
      nodeStamp (commitPass wA txA txA2.entries 5).1 entryA1.2.raw_peer
        entryA1.1.node = none ∧
      entryA1.1.node ∈ (commitPass wA txA txA2.entries 5).1.freed ∧
      (∀ f ∈ txA2.entries, f.1.slice.isSome = true →
        bus1_queue_node_is_queued (wA.peers f.2.raw_peer).queue f.1.node
          = true →
        wA.export_id f.2.raw_peer 5 ≠ BUS1_HANDLE_INVALID →
        nodeStamp (commitPass wA txA txA2.entries 5).1 f.2.raw_peer f.1.node
          = some 5) ∧
      (∀ (w' : World) (tx' : bus1_transaction),
        (bus1_transaction_commit w' tx').2.2 ≠ -EHOSTUNREACH)) :=
  ⟨by decide, by decide, by decide, by decide, by decide, by decide,
   C7_reset_silently_dropped wA txA txA2.entries entryA1 5
     (by decide) (by decide) (by decide) (by decide) (by decide)
     (by decide)⟩

/-- C10: a sliceless (CONTINUE-dropped) entry with a non-null id pointer
still gets `BUS1_HANDLE_INVALID` written to that pointer during the
commit pass; if the write faults, the entry's consume returns `-EFAULT`
(though nothing was delivered: its node stays unlinked) and a commit of a
transaction containing that entry latches the fault and returns
`-EFAULT`. -/
theorem C10_invalid_id_writeback_on_drop (w : World)
    (tx : bus1_transaction) (msg : bus1_message)
    (dest : bus1_handle_dest) (p : Ptr) (t : Nat)
    (ht : t ≠ 0) (hs : msg.slice = none) (hip : dest.idp = some p) :
    (w.faults p = false →
      (bus1_transaction_consume w tx msg dest t).1.mem p
          = BUS1_HANDLE_INVALID ∧
      (bus1_transaction_consume w tx msg dest t).2 = 0) ∧
    (w.faults p = true →
      (bus1_transaction_consume w tx msg dest t).2 = -EFAULT ∧
      nodeStamp (bus1_transaction_consume w tx msg dest t).1
        dest.raw_peer msg.node = none) ∧
    ((msg, dest) ∈ tx.entries →
      (tx.entries.map (fun e => e.1.node)).Nodup →
      w.faults p = true →
      (bus1_transaction_commit w tx).2.2 = -EFAULT) := by
  refine ⟨?_, ?_, ?_⟩
  · intro hf
    constructor
    · rw [consume_mem w tx msg dest t ht p, hs, hip]
      simp [hf]
    · rw [consume_ret w tx msg dest t ht, hs]
      have : entryFault w (msg, dest) = false := by
        rw [entryFault, hip]
        exact hf
      simp [this]
  · intro hf
    constructor
    · rw [consume_ret w tx msg dest t ht, hs]
      have : entryFault w (msg, dest) = true := by
        rw [entryFault, hip]
        exact hf
      simp [this]
    · rw [consume_nodeStamp w tx msg dest t ht, if_pos ⟨rfl, rfl⟩]
      have : ¬commitHappens w msg dest t := by
        rintro ⟨h1, _⟩
        rw [hs] at h1
        exact absurd h1 (by simp)
      simp [this]
  · intro he hnd hf
    obtain ⟨F1, F2, F3, F4, F5, F6, F7, F8⟩ :=
      commit_facts w tx (List.ne_nil_of_mem he) hnd
    rw [F4, if_pos]
    rw [List.any_eq_true]
    refine ⟨(msg, dest), he, ?_⟩
    rw [entryFault, hip]
    exact hf

theorem C10_witness :
    (3 : Nat) ≠ 0 ∧
    msgDrop.slice = none ∧
    destDrop.idp = some 11 ∧
    ((wB.faults 11 = false →
      (bus1_transaction_consume wB txDrop msgDrop destDrop 3).1.mem 11
          = BUS1_HANDLE_INVALID ∧
      (bus1_transaction_consume wB txDrop msgDrop destDrop 3).2 = 0) ∧
    (wB.faults 11 = true →
      (bus1_transaction_consume wB txDrop msgDrop destDrop 3).2
          = -EFAULT ∧
      nodeStamp (bus1_transaction_consume wB txDrop msgDrop destDrop 3).1
        destDrop.raw_peer msgDrop.node = none) ∧
    ((msgDrop, destDrop) ∈ txDrop.entries →
      (txDrop.entries.map (fun e => e.1.node)).Nodup →
      wB.faults 11 = true →
      (bus1_transaction_commit wB txDrop).2.2 = -EFAULT)) :=
  ⟨by decide, rfl, rfl,
   C10_invalid_id_writeback_on_drop wB txDrop msgDrop destDrop 11 3
     (by decide) rfl rfl⟩

/-- C5: when slice allocation at the destination fails, instantiation
under `CONTINUE` still succeeds and links a sliceless entry; committing
the resulting (single-destination) transaction enqueues nothing at the
destination, bumps its drop counter by exactly one and returns 0 (absent
a write-back fault); without `CONTINUE` instantiation returns the
`QUOTA_EXCEEDED` error and leaves the transaction unchanged. -/
theorem C5_continue_silent_drop (w : World) (tx : bus1_transaction)
    (idp : Ptr) (d : PeerId) (wb : Bool)
    (hres : w.resolve (w.mem idp) = Except.ok (d, wb))
    (halloc : w.slice_alloc d = none)
    (hent : tx.entries = [])
    (hnf : w.faults idp = false) :
    (tx.param.flag_continue = true →
      (bus1_transaction_instantiate_for_id w tx idp).2.2 = 0 ∧
      (bus1_transaction_instantiate_for_id w tx idp).2.1.entries =
        [({ node := w.next_node, slice := none, destination := 0 },
          { raw_peer := d, idp := if wb = true then some idp else none })] ∧
      (bus1_transaction_commit
          (bus1_transaction_instantiate_for_id w tx idp).1
          (bus1_transaction_instantiate_for_id w tx idp).2.1).2.2 = 0 ∧
      nodeStamp (bus1_transaction_commit
          (bus1_transaction_instantiate_for_id w tx idp).1
          (bus1_transaction_instantiate_for_id w tx idp).2.1).1 d
          w.next_node = none ∧
      peerDropped (bus1_transaction_commit
          (bus1_transaction_instantiate_for_id w tx idp).1
          (bus1_transaction_instantiate_for_id w tx idp).2.1).1 d
        = peerDropped w d + 1) ∧
    (tx.param.flag_continue = false →
      (bus1_transaction_instantiate_for_id w tx idp).2.2 = -EDQUOT ∧
      (bus1_transaction_instantiate_for_id w tx idp).2.1 = tx) := by
  constructor
  · intro hcont
    have hinst : bus1_transaction_instantiate_for_id w tx idp =
        (({ w with next_node := w.next_node + 1 }).log
            (.dealloc w.next_node),
         { tx with entries :=
            [({ node := w.next_node, slice := none, destination := 0 },
              { raw_peer := d, idp := if wb = true then some idp
                else none })] }, 0) := by
      rw [bus1_transaction_instantiate_for_id, bus1_transaction_instantiate,
          hres]
      dsimp only
      rw [halloc]
      dsimp only
      rw [if_pos hcont, hent]
    rw [hinst]
    set w1 : World := ({ w with next_node := w.next_node + 1 }).log
      (.dealloc w.next_node) with hw1
    set tx1 : bus1_transaction := { tx with entries :=
      [({ node := w.next_node, slice := none, destination := 0 },
        { raw_peer := d, idp := if wb = true then some idp
          else none })] } with htx1
    obtain ⟨F1, F2, F3, F4, F5, F6, F7, F8⟩ :=
      commit_facts w1 tx1 (by rw [htx1]; simp) (by rw [htx1]; simp)
    have hfa : w1.faults = w.faults := rfl
    refine ⟨rfl, rfl, ?_, ?_, ?_⟩
    · rw [F4]
      have : tx1.entries.any (fun e => entryFault w1 e) = false := by
        rw [htx1]
        cases wb with
        | false => simp [entryFault]
        | true =>
          simp only [List.any_cons, List.any_nil, Bool.or_false]
          rw [entryFault]
          simpa [hfa] using hnf
      rw [this]
      simp
    · rw [htx1] at F2
      obtain ⟨B1, B2⟩ := F2 _ (List.mem_singleton.mpr rfl)
      exact (B2 (by rintro ⟨h1, _⟩; exact absurd h1 (by simp))).1
    · rw [F5 d]
      have : tx1.entries.countP
          (fun e => e.2.raw_peer == d && e.1.slice.isNone) = 1 := by
        rw [htx1]
        simp
      rw [this]
      rfl
  · intro hcont
    have hinst : bus1_transaction_instantiate_for_id w tx idp =
        ((wFreeMsg (({ w with next_node := w.next_node + 1 }).log
            (.dealloc w.next_node)) w.next_node).log
              (.destDestroy d), tx, -EDQUOT) := by
      rw [bus1_transaction_instantiate_for_id, bus1_transaction_instantiate,
          hres]
      dsimp only
      rw [halloc]
      dsimp only
      rw [if_neg (by rw [hcont]; exact Bool.false_ne_true)]
    rw [hinst]
    exact ⟨rfl, rfl⟩

theorem C5_witness :
    wC.resolve (wC.mem 10) = Except.ok (1, true) ∧
    wC.slice_alloc 1 = none ∧
    txCont.entries = [] ∧
    wC.faults 10 = false ∧
    ((txCont.param.flag_continue = true →
      (bus1_transaction_instantiate_for_id wC txCont 10).2.2 = 0 ∧
      (bus1_transaction_instantiate_for_id wC txCont 10).2.1.entries =
        [({ node := wC.next_node, slice := none, destination := 0 },
          { raw_peer := 1, idp := if true = true then some 10
            else none })] ∧
      (bus1_transaction_commit
          (bus1_transaction_instantiate_for_id wC txCont 10).1
          (bus1_transaction_instantiate_for_id wC txCont 10).2.1).2.2
        = 0 ∧
      nodeStamp (bus1_transaction_commit
          (bus1_transaction_instantiate_for_id wC txCont 10).1
          (bus1_transaction_instantiate_for_id wC txCont 10).2.1).1 1
          wC.next_node = none ∧
      peerDropped (bus1_transaction_commit
          (bus1_transaction_instantiate_for_id wC txCont 10).1
          (bus1_transaction_instantiate_for_id wC txCont 10).2.1).1 1
        = peerDropped wC 1 + 1) ∧
    (txCont.param.flag_continue = false →
      (bus1_transaction_instantiate_for_id wC txCont 10).2.2 = -EDQUOT ∧
      (bus1_transaction_instantiate_for_id wC txCont 10).2.1 = txCont)) :=
  ⟨rfl, rfl, rfl, rfl,
   C5_continue_silent_drop wC txCont 10 1 true rfl rfl rfl rfl⟩

/-- C9: teardown of a transaction removes every listed entry's node from
its destination queue and frees every listed message, emitting exactly
the spec's per-entry teardown blocks (remove, wake iff the removal
changed visibility, deallocate, free, release the destination pin), then
the `fput` of every remaining non-null file slot and finally the
handle-transfer release; and since commit empties the entries list, a
teardown that follows a commit touches no queue and frees no message. -/
theorem C9_teardown_walk (w : World) (tx : bus1_transaction) :
    (∀ e ∈ tx.entries,
      nodeStamp (bus1_transaction_destroy w tx) e.2.raw_peer e.1.node
        = none) ∧
    (bus1_transaction_destroy w tx).freed =
      w.freed ++ tx.entries.map (fun e => e.1.node) ∧
    (bus1_transaction_destroy w tx).events =
      w.events ++ spec_teardown_blocks w.peers tx.entries
        ++ fput_trace tx.files ++ [Event.transferDestroy] ∧
    (bus1_transaction_commit w tx).2.1.entries = [] ∧
    (∀ (w' : World) (tx' : bus1_transaction), tx'.entries = [] →
      (bus1_transaction_destroy w' tx').peers = w'.peers ∧
      (bus1_transaction_destroy w' tx').freed = w'.freed) := by
  obtain ⟨hp, hf, hm⟩ :=
    fputFold_state tx.files (tx.entries.foldl destroyEntryStep w)
  refine ⟨?_, ?_, ?_, commit_entries_empty w tx, ?_⟩
  · intro e he
    show nodeStamp ((tx.files.foldl fputStep _).log _) e.2.raw_peer e.1.node
      = none
    rw [log_nodeStamp, nodeStamp, hp, ← nodeStamp]
    exact destroyEntriesFold_removed tx.entries w e he
  · show ((tx.files.foldl fputStep _).log _).freed = _
    rw [log_freed, hf, destroyEntriesFold_freed]
  · show ((tx.files.foldl fputStep _).log _).events = _
    rw [log_events, fputFold_events, destroyEntriesFold_events,
        List.append_assoc, List.append_assoc]
  · intro w' tx' hent
    obtain ⟨hp', hf', hm'⟩ := fputFold_state tx'.files
      (tx'.entries.foldl destroyEntryStep w')
    rw [hent] at hp' hf'
    constructor
    · show ((tx'.files.foldl fputStep _).log _).peers = _
      rw [log_peers]
      rw [hent]
      exact hp'
    · show ((tx'.files.foldl fputStep _).log _).freed = _
      rw [log_freed]
      rw [hent]
      exact hf'

theorem C8_witness :
    (bus1_transaction_instantiate wA txA 10).1.mem = wA.mem ∧
    (bus1_transaction_instantiate_for_id wA txA 10).1.mem = wA.mem ∧
    (∃ δ, (bus1_transaction_instantiate_for_id wA txA 10).1.events
        = wA.events ++ δ ∧ ∀ ev ∈ δ, isPut ev = false) :=
  C8_writeback_only_in_commit_pass.1 wA txA 10

theorem C9_witness :
    (∀ e ∈ txA2.entries,
      nodeStamp (bus1_transaction_destroy wA txA2) e.2.raw_peer e.1.node
        = none) ∧
    (bus1_transaction_destroy wA txA2).freed =
      wA.freed ++ txA2.entries.map (fun e => e.1.node) ∧
    (bus1_transaction_destroy wA txA2).events =
      wA.events ++ spec_teardown_blocks wA.peers txA2.entries
        ++ fput_trace txA2.files ++ [Event.transferDestroy] ∧
    (bus1_transaction_commit wA txA2).2.1.entries = [] ∧
    (∀ (w' : World) (tx' : bus1_transaction), tx'.entries = [] →
      (bus1_transaction_destroy w' tx').peers = w'.peers ∧
      (bus1_transaction_destroy w' tx').freed = w'.freed) :=
  C9_teardown_walk wA txA2

end Claims

end Bus1
